import Mathlib

/-!
Shallow embedding of the ZavodHelper knowledge-base backend
(FastAPI + SQLAlchemy + SQLite), covering:

* the relational data model of `app/models/models.py` (items, pages,
  actions, categories, locations, and the item↔location association
  table), with the SQLite row stores modelled as Lean lists and the
  autoincrement id sources as explicit counters;
* the request/response schemas of `app/schemas/schemas.py` together with
  their pydantic length constraints;
* the CRUD layer of `app/crud/crud.py` (`create_item`, `update_item`,
  `delete_item`, `get_item`, `get_items_by_type`, `search_items`,
  `export_all_items`, `bulk_import_items`);
* the relevant route handlers of `app/routers/api.py` (item creation
  with validation, `DELETE /clear`) and `app/routers/upload.py`.

Strings are Lean `String`s; `String.length` counts characters exactly as
pydantic's `min_length`/`max_length` do.  SQL `ORDER BY` is modelled by an
insertion sort over a boolean comparator (ties are broken arbitrarily in
SQL, so any sort is a faithful model).  SQLite `LIKE` (used via `ilike`
with an `%…%` pattern in `search_items`) is modelled by an explicit
pattern matcher with ASCII case folding, including its `%`/`_` wildcard
semantics.
-/

set_option linter.unusedVariables false

/-- Item classification, from `app.models.models.ItemType`. -/
inductive ItemType where
  | incident
  | instruction
deriving DecidableEq

/-- Row of the `locations` table. -/
structure LocationRow where
  id : Nat
  name : String
  code : String
  order : Nat := 0
deriving DecidableEq

/-- Row of the `categories` table. -/
structure CategoryRow where
  id : Nat
  name : String
  item_type : ItemType
  icon : String := "📁"
  color : String := "#3498db"
  order : Nat := 0
deriving DecidableEq

/-- Row of the `items` table. -/
structure ItemRow where
  id : Nat
  title : String
  item_type : ItemType
  category_id : Option Nat := none
deriving DecidableEq

/-- Row of the `pages` table. -/
structure PageRow where
  id : Nat
  item_id : Nat
  title : String
  time : String := "5 минут"
  image : Option String := none
  order : Nat := 0
deriving DecidableEq

/-- Row of the `actions` table. -/
structure ActionRow where
  id : Nat
  page_id : Nat
  text : String
  order : Nat := 0
deriving DecidableEq

/-- The relational store: one list per table plus the `item_locations`
association table (pairs `(item_id, location_id)`) and the id counters
backing the integer primary keys. -/
@[ext]
structure DB where
  items : List ItemRow := []
  pages : List PageRow := []
  actions : List ActionRow := []
  categories : List CategoryRow := []
  locations : List LocationRow := []
  item_locations : List (Nat × Nat) := []
  nextItemId : Nat := 1
  nextPageId : Nat := 1
  nextActionId : Nat := 1
deriving DecidableEq

/-- The freshly initialised database. -/
def emptyDB : DB := {}

/-! ### Request schemas (`app/schemas/schemas.py`) -/

/-- Schema `PageCreate`: page payload inside an item create/update request.
The `actions` field is a plain list of strings. -/
structure PageCreate where
  title : String
  time : String := "5 минут"
  image : Option String := none
  actions : List String := []
deriving DecidableEq

/-- Schema `ItemCreate`.  The `location_ids` field is
Modelled from the spec: the snapshot of `schemas.py` lacks the
`location_ids` field that `crud.create_item` reads
(`if item_data.location_ids:`); the spec declares the creation payload to
carry an optional `location_ids` list. -/
structure ItemCreate where
  title : String
  item_type : ItemType
  category_id : Option Nat := none
  location_ids : Option (List Nat) := none
  pages : List PageCreate := []
deriving DecidableEq

/-- Schema `ItemUpdate`: the partial-update payload.  Every value field is
optional with default `none` (pydantic default `None`), and the `…_set`
flags model membership in pydantic's `model_fields_set`, i.e. whether the
field was explicitly present in the request body (a field can be present
with a `null` value: then the flag is `true` while the value is `none`).
The code consults `model_fields_set` only for `category_id`.
The `location_ids` field is Modelled from the spec: it is missing from
the snapshot of `schemas.py` but read by `crud.update_item`
(`if item_data.location_ids is not None:`). -/
structure ItemUpdate where
  title : Option String := none
  title_set : Bool := false
  item_type : Option ItemType := none
  item_type_set : Bool := false
  category_id : Option Nat := none
  category_id_set : Bool := false
  location_ids : Option (List Nat) := none
  location_ids_set : Bool := false
  pages : Option (List PageCreate) := none
  pages_set : Bool := false
deriving DecidableEq

/-- Pydantic constraint `Field(..., min_length=1, max_length=255)` on item
and page titles. -/
def validTitle (s : String) : Bool := 1 ≤ s.length && s.length ≤ 255

/-- Pydantic constraint `Field(default="5 минут", max_length=50)` on page
`time`. -/
def validTime (s : String) : Bool := s.length ≤ 50

/-- Pydantic constraint `Field(..., min_length=1, max_length=1000)`
declared on `ActionBase.text`.  It is attached only to `ActionCreate` and
`ActionResponse`, which no input path uses: `PageCreate.actions` is a
plain `list[str]`, so this bound is never enforced on create, update or
import. -/
def validActionText (s : String) : Bool := 1 ≤ s.length && s.length ≤ 1000

/-- Validity of a `PageCreate` payload under the pydantic constraints:
the title and time bounds only — `actions` is a plain `list[str]` with no
per-string constraints. -/
def validPageCreate (p : PageCreate) : Bool :=
  validTitle p.title && validTime p.time

/-- Validity of an `ItemCreate` payload under the pydantic constraints. -/
def validItemCreate (d : ItemCreate) : Bool :=
  validTitle d.title && d.pages.all validPageCreate

/-! ### Sorting (model of SQL `ORDER BY`) -/

/-- Insert an element into a list, after every element the comparator
accepts before it. -/
def insertBy (le : α → α → Bool) (x : α) : List α → List α
  | [] => [x]
  | y :: ys => if le y x then y :: insertBy le x ys else x :: y :: ys

/-- Insertion sort by a boolean comparator; models SQL `ORDER BY` (which
leaves the relative order of ties unspecified). -/
def sortBy (le : α → α → Bool) : List α → List α
  | [] => []
  | y :: ys => insertBy le y (sortBy le ys)

/-! ### Read operations (`app/crud/crud.py`) -/

/-- Comparator for `order` columns (used by the `order_by="Page.order"` and
`order_by="Action.order"` relationship configurations). -/
def ordLePage (a b : PageRow) : Bool := decide (a.order ≤ b.order)

/-- Comparator for action rows by their `order` column. -/
def ordLeAction (a b : ActionRow) : Bool := decide (a.order ≤ b.order)

/-- Action rows attached to page `pid`, in `Action.order` order
(the `Page.actions` relationship). -/
def actionRowsFor (acts : List ActionRow) (pid : Nat) : List ActionRow :=
  sortBy ordLeAction (acts.filter (fun a => a.page_id == pid))

/-- Page rows attached to item `iid`, in `Page.order` order
(the `Item.pages` relationship). -/
def pageRowsFor (pgs : List PageRow) (iid : Nat) : List PageRow :=
  sortBy ordLePage (pgs.filter (fun p => p.item_id == iid))

/-- Pages of an item as stored in `db`. -/
def pagesOf (db : DB) (iid : Nat) : List PageRow := pageRowsFor db.pages iid

/-- Actions of a page as stored in `db`. -/
def actionsOf (db : DB) (pid : Nat) : List ActionRow := actionRowsFor db.actions pid

/-- Location ids associated with an item through the `item_locations`
table. -/
def itemLocationIds (db : DB) (iid : Nat) : List Nat :=
  (db.item_locations.filter (fun pr => pr.1 == iid)).map (fun pr => pr.2)

/-- A page together with its eagerly loaded actions. -/
structure PageTree where
  page : PageRow
  actions : List ActionRow
deriving DecidableEq

/-- An item with all related data eagerly loaded, as returned by
`crud.get_item` (joinedload of pages→actions, category, locations). -/
structure ItemTree where
  item : ItemRow
  category : Option CategoryRow := none
  locations : List LocationRow := []
  pages : List PageTree := []
deriving DecidableEq

/-- Load the full tree for an item row (pages with actions, category,
locations), as the joinedloads of `get_item`/`get_items_by_type` do. -/
def loadTree (db : DB) (i : ItemRow) : ItemTree :=
  { item := i
    category := i.category_id.bind (fun c => db.categories.find? (fun cat => cat.id == c))
    locations := db.locations.filter (fun l => (itemLocationIds db i.id).contains l.id)
    pages := (pagesOf db i.id).map (fun p => { page := p, actions := actionsOf db p.id }) }

/-- Model of `crud.get_item`: the first item row with the given id, with
all related data loaded. -/
def get_item (db : DB) (iid : Nat) : Option ItemTree :=
  (db.items.find? (fun i => i.id == iid)).map (loadTree db)

/-- Comparator for item rows by id (`ORDER BY items.id`). -/
def idLeItem (a b : ItemRow) : Bool := decide (a.id ≤ b.id)

/-- Model of `crud.get_items_by_type`: all items of a type with full data,
ordered by id ascending (filters on category/location omitted, i.e. taken
as `None`). -/
def get_items_by_type (db : DB) (t : ItemType) : List ItemTree :=
  (sortBy idLeItem (db.items.filter (fun i => decide (i.item_type = t)))).map (loadTree db)

/-! ### Search (`crud.search_items`) -/

/-- ASCII lower-casing, as performed by SQLite `LIKE` / `lower()` (SQLite
folds only the characters `A`–`Z`). -/
def lowerChar (c : Char) : Char :=
  if 65 ≤ c.toNat && c.toNat ≤ 90 then Char.ofNat (c.toNat + 32) else c

/-- SQL `LIKE` pattern matching with ASCII case folding: `%` matches any
sequence, `_` matches any single character, any other pattern character
matches case-insensitively. -/
def likeMatch : List Char → List Char → Bool
  | [], [] => true
  | [], _ :: _ => false
  | '%' :: ps, [] => likeMatch ps []
  | '%' :: ps, c :: s => likeMatch ps (c :: s) || likeMatch ('%' :: ps) s
  | '_' :: _, [] => false
  | '_' :: ps, _ :: s => likeMatch ps s
  | _ :: _, [] => false
  | p :: ps, c :: s => (lowerChar p == lowerChar c) && likeMatch ps s
termination_by p s => p.length + s.length

/-- The pattern `search_items` builds: `f"%{query}%"`. -/
def searchPattern (q : String) : List Char := '%' :: (q.data ++ ['%'])

/-- Comparator for item rows by title (`ORDER BY items.title`; SQLite's
default binary collation coincides with codepoint order because UTF-8
byte order preserves it). -/
def titleLeItem (a b : ItemRow) : Bool := decide (a.title ≤ b.title)

/-- Model of `crud.search_items`: items whose title matches the `LIKE`
pattern `%query%`, ordered by title (type/category/location filters
omitted, i.e. taken as `None`).  Returns the rows; the handler attaches
category/location data which the search claims do not concern. -/
def search_items (db : DB) (q : String) : List ItemRow :=
  sortBy titleLeItem (db.items.filter (fun i => likeMatch (searchPattern q) i.title.data))

/-! ### Item creation (`crud.create_item`) -/

/-- Append one action row, as the inner `enumerate(page_data.actions)`
loop body does (`Action(page_id=…, text=…, order=…)` plus `db.add`). -/
def appendAction (db : DB) (pid ord : Nat) (text : String) : DB :=
  { db with
    actions := db.actions ++ [{ id := db.nextActionId, page_id := pid, text := text, order := ord }]
    nextActionId := db.nextActionId + 1 }

/-- The `for action_order, action_text in enumerate(page_data.actions)`
loop, starting at order `ord`. -/
def addActions (pid : Nat) (ord : Nat) (db : DB) : List String → DB
  | [] => db
  | t :: ts => addActions pid (ord + 1) (appendAction db pid ord t) ts

/-- One iteration of the page loop: insert the page row (its id taken
from the flush) and then its actions with orders `0..`. -/
def addPage (iid : Nat) (ord : Nat) (db : DB) (p : PageCreate) : DB :=
  addActions db.nextPageId 0
    { db with
      pages := db.pages ++
        [{ id := db.nextPageId, item_id := iid, title := p.title, time := p.time,
           image := p.image, order := ord }]
      nextPageId := db.nextPageId + 1 }
    p.actions

/-- The `for page_order, page_data in enumerate(item_data.pages)` loop,
starting at order `ord`. -/
def addPages (iid : Nat) (ord : Nat) (db : DB) : List PageCreate → DB
  | [] => db
  | p :: ps => addPages iid (ord + 1) (addPage iid ord db p) ps

/-- Location rows whose id is in the requested list:
`db.query(Location).filter(Location.id.in_(ids)).all()`. -/
def resolveLocations (db : DB) (ids : List Nat) : List LocationRow :=
  db.locations.filter (fun l => ids.contains l.id)

/-- First step of `create_item`: insert the item row; the flush hands out
the next id. -/
def createBase (db : DB) (d : ItemCreate) : DB :=
  { db with
    items := db.items ++ [{ id := db.nextItemId, title := d.title, item_type := d.item_type,
                            category_id := d.category_id }]
    nextItemId := db.nextItemId + 1 }

/-- Second step of `create_item`: associate locations when `location_ids`
is truthy (Python `if item_data.location_ids:` skips both `None` and
`[]`); setting `db_item.locations` on a fresh item inserts the
association rows. -/
def createLocs (db1 : DB) (iid : Nat) (d : ItemCreate) : DB :=
  match d.location_ids with
  | none => db1
  | some ids =>
    if ids.isEmpty then db1
    else { db1 with
           item_locations := db1.item_locations ++
             (resolveLocations db1 ids).map (fun l => (iid, l.id)) }

/-- Model of `crud.create_item`: insert the item row (id from the flush),
associate locations, then create pages and actions with dense orders.
Returns the new state and the new item's id (the Python function returns
`get_item(db, db_item.id)`). -/
def create_item (db : DB) (d : ItemCreate) : DB × Nat :=
  (addPages db.nextItemId 0 (createLocs (createBase db d) db.nextItemId d) d.pages,
   db.nextItemId)

/-- Model of the `POST /api/items` handler: FastAPI/pydantic validate the
payload before `create_item` runs; an invalid payload is rejected with a
validation error and the store is untouched (`none` in the second
component signals the `ValidationError`). -/
def api_create_item (db : DB) (d : ItemCreate) : DB × Option Nat :=
  if validItemCreate d then
    let r := create_item db d
    (r.1, some r.2)
  else (db, none)

/-! ### Item update (`crud.update_item`) -/

/-- Apply the scalar field updates of `update_item`: `title` and
`item_type` only when the value is not `None`, `category_id` whenever
`'category_id' in item_data.model_fields_set`. -/
def applyItemFields (u : ItemUpdate) (i : ItemRow) : ItemRow :=
  { i with
    title := u.title.getD i.title
    item_type := u.item_type.getD i.item_type
    category_id := if u.category_id_set then u.category_id else i.category_id }

/-- Scalar step of `update_item`: apply the field updates to the matching
item row. -/
def updScalar (db : DB) (iid : Nat) (u : ItemUpdate) : DB :=
  { db with
    items := db.items.map (fun i => if i.id == iid then applyItemFields u i else i) }

/-- Location step of `update_item`: when `location_ids is not None`, the
association set of the item is fully replaced. -/
def updLocs (db1 : DB) (iid : Nat) (u : ItemUpdate) : DB :=
  match u.location_ids with
  | none => db1
  | some ids =>
    { db1 with
      item_locations := db1.item_locations.filter (fun pr => pr.1 != iid) ++
        (resolveLocations db1 ids).map (fun l => (iid, l.id)) }

/-- Page step of `update_item`: when `pages is not None`, clear the page
subtree (`db_item.pages.clear()`: the delete-orphan cascade removes the
pages and, transitively, their actions) and insert the new pages with
orders `0..`. -/
def updPages (db2 : DB) (iid : Nat) (u : ItemUpdate) : DB :=
  match u.pages with
  | none => db2
  | some ps =>
    let deadPids := (db2.pages.filter (fun p => p.item_id == iid)).map (fun p => p.id)
    addPages iid 0
      { db2 with
        pages := db2.pages.filter (fun p => p.item_id != iid)
        actions := db2.actions.filter (fun a => !(deadPids.contains a.page_id)) }
      ps

/-- Model of `crud.update_item`: `None` when the item does not exist;
otherwise apply the scalar, location and page steps in order. -/
def update_item (db : DB) (iid : Nat) (u : ItemUpdate) : Option DB :=
  match db.items.find? (fun i => i.id == iid) with
  | none => none
  | some _ => some (updPages (updLocs (updScalar db iid u) iid u) iid u)

/-! ### Item deletion and bulk clear -/

/-- Model of `crud.delete_item`: ORM delete of the loaded item cascades to
its pages (relationship cascade `all, delete-orphan`), to their actions,
and to the `item_locations` association rows. -/
def delete_item (db : DB) (iid : Nat) : DB × Bool :=
  match db.items.find? (fun i => i.id == iid) with
  | none => (db, false)
  | some _ =>
    let deadPids := (db.pages.filter (fun p => p.item_id == iid)).map (fun p => p.id)
    ({ db with
       items := db.items.filter (fun i => i.id != iid)
       pages := db.pages.filter (fun p => p.item_id != iid)
       actions := db.actions.filter (fun a => !(deadPids.contains a.page_id))
       item_locations := db.item_locations.filter (fun pr => pr.1 != iid) }, true)

/-- Model of the `DELETE /api/clear?confirm=true` handler body:
`db.query(Item).delete()` is a bulk DELETE that bypasses the ORM
relationship cascades, and the engine is SQLite created without the
`foreign_keys` pragma, so the `ondelete="CASCADE"` clauses are not
enforced either: only the `items` rows are removed; page, action and
association rows survive untouched. -/
def clear_all_items (db : DB) : DB := { db with items := [] }

/-! ### Export and import (`crud.export_all_items`, `crud.bulk_import_items`) -/

/-- Page dictionary produced by `export_all_items` (`image` is
`page.image or ""`). -/
structure ExportPage where
  title : String
  time : String
  image : String
  actions : List String
deriving DecidableEq

/-- Item dictionary produced by `export_all_items`. -/
structure ExportEntry where
  id : Nat
  title : String
  category_id : Option Nat
  location_ids : List Nat
  pages : List ExportPage
deriving DecidableEq

/-- The export snapshot: items grouped by type. -/
structure ExportBundle where
  incidents : List ExportEntry := []
  instructions : List ExportEntry := []
deriving DecidableEq

/-- The `item_to_dict` helper of `export_all_items`. -/
def treeToDict (t : ItemTree) : ExportEntry :=
  { id := t.item.id
    title := t.item.title
    category_id := t.item.category_id
    location_ids := t.locations.map (fun l => l.id)
    pages := t.pages.map (fun pv =>
      { title := pv.page.title
        time := pv.page.time
        image := pv.page.image.getD ""
        actions := pv.actions.map (fun a => a.text) }) }

/-- Model of `crud.export_all_items`. -/
def export_all_items (db : DB) : ExportBundle :=
  { incidents := (get_items_by_type db .incident).map treeToDict
    instructions := (get_items_by_type db .instruction).map treeToDict }

/-- A raw page dictionary inside an import payload: every key may be
absent (`p.get(…)` with defaults). -/
structure ImportPage where
  title : Option String := none
  time : Option String := none
  image : Option String := none
  actions : Option (List String) := none
deriving DecidableEq

/-- Schema `ImportItem`: the import payload keeps only `id`, `title` and
`pages`; any `category_id`/`location_ids` keys of the incoming JSON are
dropped by pydantic parsing. -/
structure ImportItem where
  id : Option Nat := none
  title : String
  pages : List ImportPage := []
deriving DecidableEq

/-- Schema `ImportData`. -/
structure ImportData where
  incidents : List ImportItem := []
  instructions : List ImportItem := []
deriving DecidableEq

/-- Pydantic parsing of one export entry as an `ImportItem`: the
`category_id` and `location_ids` keys are silently dropped (they are not
fields of `ImportItem`); the page dictionaries keep all their keys. -/
def parseExportEntry (x : ExportEntry) : ImportItem :=
  { id := some x.id, title := x.title,
    pages := x.pages.map (fun p =>
      { title := some p.title, time := some p.time,
        image := some p.image, actions := some p.actions }) }

/-- Pydantic parsing of an export snapshot as `ImportData`. -/
def parseImportData (e : ExportBundle) : ImportData :=
  { incidents := e.incidents.map parseExportEntry
    instructions := e.instructions.map parseExportEntry }

/-- The page payload `bulk_import_items` synthesizes:
`p.get("title", "Страница")`, `p.get("time", "5 минут")`,
`p.get("image")`, `p.get("actions", [])`. -/
def importPageToCreate (p : ImportPage) : PageCreate :=
  { title := p.title.getD "Страница"
    time := p.time.getD "5 минут"
    image := p.image
    actions := p.actions.getD [] }

/-- The `ItemCreate` payload `bulk_import_items` synthesizes for one
snapshot entry: the snapshot `id` is not consulted, `category_id` and
`location_ids` take their defaults (`None`). -/
def importItemToCreate (t : ItemType) (it : ImportItem) : ItemCreate :=
  { title := it.title, item_type := t, pages := it.pages.map importPageToCreate }

/-- Outcome of importing one list of entries: resulting state, number of
created items, and whether every entry passed pydantic validation
(constructing `ItemCreate(…)` validates; the first failure raises,
leaving the items created so far committed). -/
structure ImportOutcome where
  db : DB
  count : Nat := 0
  ok : Bool := true
deriving DecidableEq

/-- One import loop of `bulk_import_items` over a list of entries. -/
def importList (t : ItemType) (db : DB) : List ImportItem → ImportOutcome
  | [] => { db := db }
  | it :: rest =>
    let d := importItemToCreate t it
    if validItemCreate d then
      let r := importList t (create_item db d).1 rest
      { r with count := r.count + 1 }
    else { db := db, ok := false }

/-- Outcome of a whole bulk import: resulting state, the two counters of
the returned `imported` dictionary, and the validation flag. -/
structure BulkOutcome where
  db : DB
  incidents : Nat := 0
  instructions : Nat := 0
  ok : Bool := true
deriving DecidableEq

/-- Model of `crud.bulk_import_items`: import all incidents, then all
instructions, counting created items; a validation failure stops
the import with everything created so far still committed. -/
def bulk_import_items (db : DB) (data : ImportData) : BulkOutcome :=
  let r1 := importList .incident db data.incidents
  if r1.ok then
    let r2 := importList .instruction r1.db data.instructions
    { db := r2.db, incidents := r1.count, instructions := r2.count, ok := r2.ok }
  else { db := r1.db, incidents := r1.count, ok := false }

/-- Replace every snapshot `id` with `None`. -/
def eraseIds (d : ImportData) : ImportData :=
  { incidents := d.incidents.map (fun it => { it with id := none })
    instructions := d.instructions.map (fun it => { it with id := none }) }

/-! ### Upload (`app/routers/upload.py`, `app/config.py`) -/

/-- Configuration `MAX_UPLOAD_SIZE = 5 * 1024 * 1024`. -/
def MAX_UPLOAD_SIZE : Nat := 5 * 1024 * 1024

/-- Configuration `ALLOWED_EXTENSIONS = {"png", "jpg", "jpeg", "gif", "webp"}`. -/
def ALLOWED_EXTENSIONS : List String := ["png", "jpg", "jpeg", "gif", "webp"]

/-- The extension extracted by `filename.rsplit('.', 1)[-1].lower()`: the
characters after the last dot (the whole name when there is no dot),
lower-cased. -/
def extOf (s : String) : String :=
  ⟨((s.data.reverse.takeWhile (fun c => c != '.')).reverse).map lowerChar⟩

/-- An upload request: the (optional) client-supplied filename and the
size of the uploaded bytes. -/
structure UploadReq where
  filename : Option String := none
  size : Nat := 0
deriving DecidableEq

/-- Result of the upload handler.  `badExtension`, `tooLarge` and
`processFailed` are all surfaced as HTTP 400. -/
inductive UploadResult where
  | badExtension
  | tooLarge
  | processed (size : Nat)
  | processFailed
deriving DecidableEq

/-- Whether an upload result is a 400 rejection. -/
def uploadRejected : UploadResult → Bool
  | .badExtension => true
  | .tooLarge => true
  | .processFailed => true
  | .processed _ => false

/-- Model of the `POST /api/upload` handler: the extension check runs
first (skipped when the filename is absent or empty, Python
`if file.filename:`), then the size check, and only then the image
pipeline, abstracted as the `process` parameter (`none` models a
`process_image` failure). -/
def upload_image (process : Nat → Option Nat) (req : UploadReq) : UploadResult :=
  if (match req.filename with
      | some f => !f.isEmpty && !(ALLOWED_EXTENSIONS.contains (extOf f))
      | none => false) then .badExtension
  else if MAX_UPLOAD_SIZE < req.size then .tooLarge
  else
    match process req.size with
    | some n => .processed n
    | none => .processFailed

/-! ### Well-formedness of a store -/

/-- Well-formedness of a database state: primary keys are unique and below
their counters, child rows reference keys below the parent counters, and
stored item/page titles and page times satisfy the schema constraints that
every input path validates them against.  These all hold of every state
the application can reach.  (No such field exists for action texts: the
program never validates them, so empty or oversized action texts are
reachable.) -/
structure WF (db : DB) : Prop where
  items_nodup : (db.items.map (fun i => i.id)).Nodup
  items_lt : ∀ i ∈ db.items, i.id < db.nextItemId
  pages_nodup : (db.pages.map (fun p => p.id)).Nodup
  pages_lt : ∀ p ∈ db.pages, p.id < db.nextPageId
  pages_item_lt : ∀ p ∈ db.pages, p.item_id < db.nextItemId
  actions_page_lt : ∀ a ∈ db.actions, a.page_id < db.nextPageId
  assoc_item_lt : ∀ pr ∈ db.item_locations, pr.1 < db.nextItemId
  items_valid : ∀ i ∈ db.items, validTitle i.title = true
  pages_valid : ∀ p ∈ db.pages, validTitle p.title = true ∧ validTime p.time = true

/-! ### Helper lemmas about the sorting model -/

theorem insertBy_perm (le : α → α → Bool) (x : α) (l : List α) :
    (insertBy le x l).Perm (x :: l) := by
  induction l with
  | nil => simp [insertBy]
  | cons y ys ih =>
    simp only [insertBy]
    by_cases h : le y x = true
    · simp only [h, if_true]
      exact (ih.cons y).trans (List.Perm.swap x y ys)
    · simp [h]

theorem sortBy_perm (le : α → α → Bool) (l : List α) : (sortBy le l).Perm l := by
  induction l with
  | nil => simp [sortBy]
  | cons y ys ih =>
    exact (insertBy_perm le y (sortBy le ys)).trans (ih.cons y)

theorem mem_sortBy {le : α → α → Bool} {l : List α} {x : α} :
    x ∈ sortBy le l ↔ x ∈ l :=
  (sortBy_perm le l).mem_iff

theorem insertBy_eq_cons {le : α → α → Bool} {x : α} {l : List α}
    (h : ∀ z ∈ l, le z x = false) : insertBy le x l = x :: l := by
  cases l with
  | nil => rfl
  | cons z zs =>
    have hz : le z x = false := h z (by simp)
    simp [insertBy, hz]

theorem sortBy_eq_self {le : α → α → Bool} {l : List α}
    (h : l.Pairwise (fun a b => le b a = false)) : sortBy le l = l := by
  induction l with
  | nil => rfl
  | cons y ys ih =>
    rw [sortBy, ih h.tail, insertBy_eq_cons]
    intro z hz
    exact (List.pairwise_cons.mp h).1 z hz

theorem pairwise_insertBy {le : α → α → Bool}
    (htot : ∀ a b, le a b = false → le b a = true)
    (htrans : ∀ a b c, le a b = true → le b c = true → le a c = true)
    {l : List α} (x : α) (h : l.Pairwise (fun a b => le a b = true)) :
    (insertBy le x l).Pairwise (fun a b => le a b = true) := by
  induction l with
  | nil => simp [insertBy]
  | cons y ys ih =>
    rcases List.pairwise_cons.mp h with ⟨hy, hys⟩
    by_cases hyx : le y x = true
    · have hmem : ∀ z ∈ insertBy le x ys, z = x ∨ z ∈ ys := by
        intro z hz
        have := (insertBy_perm le x ys).mem_iff.mp hz
        simpa using this
      simp only [insertBy, hyx, if_true]
      refine List.pairwise_cons.mpr ⟨?_, ih hys⟩
      intro z hz
      rcases hmem z hz with rfl | hz'
      · exact hyx
      · exact hy z hz'
    · have hxy : le x y = true := htot y x (by simpa using hyx)
      simp only [insertBy, hyx, if_false]
      refine List.pairwise_cons.mpr ⟨?_, h⟩
      intro z hz
      rcases List.mem_cons.mp hz with rfl | hz'
      · exact hxy
      · exact htrans x y z hxy (hy z hz')

theorem sortBy_pairwise {le : α → α → Bool}
    (htot : ∀ a b, le a b = false → le b a = true)
    (htrans : ∀ a b c, le a b = true → le b c = true → le a c = true)
    (l : List α) : (sortBy le l).Pairwise (fun a b => le a b = true) := by
  induction l with
  | nil => simp [sortBy]
  | cons y ys ih => exact pairwise_insertBy htot htrans y ih

/-! ### Closed forms for the page/action creation loops -/

/-- Rows produced by one `enumerate(page_data.actions)` loop: ids from
`aid`, orders from `ord`. -/
def mkActionRows (pid aid ord : Nat) : List String → List ActionRow
  | [] => []
  | t :: ts => { id := aid, page_id := pid, text := t, order := ord } :: mkActionRows pid (aid + 1) (ord + 1) ts

/-- The page row inserted for payload `p` with id `pid` and order `ord`. -/
def mkPageRow (iid pid ord : Nat) (p : PageCreate) : PageRow :=
  { id := pid, item_id := iid, title := p.title, time := p.time, image := p.image, order := ord }

/-- Page rows produced by the page loop: ids from `pid`, orders from
`ord`. -/
def mkPageRows (iid pid ord : Nat) : List PageCreate → List PageRow
  | [] => []
  | p :: ps => mkPageRow iid pid ord p :: mkPageRows iid (pid + 1) (ord + 1) ps

/-- Total number of action strings in a list of page payloads. -/
def totalActionCount : List PageCreate → Nat
  | [] => 0
  | p :: ps => p.actions.length + totalActionCount ps

/-- Action rows produced by the page loop: each page's actions with that
page's id, action ids running on across pages. -/
def mkPageActions (pid aid : Nat) : List PageCreate → List ActionRow
  | [] => []
  | p :: ps => mkActionRows pid aid 0 p.actions ++ mkPageActions (pid + 1) (aid + p.actions.length) ps

theorem addActions_eq (ts : List String) (db : DB) (pid ord : Nat) :
    addActions pid ord db ts =
      { db with actions := db.actions ++ mkActionRows pid db.nextActionId ord ts,
                nextActionId := db.nextActionId + ts.length } := by
  induction ts generalizing db ord with
  | nil => simp [addActions, mkActionRows]
  | cons t ts ih =>
    rw [addActions, ih]
    cases db
    simp [appendAction, mkActionRows, List.append_assoc]
    omega

theorem addPages_eq (ps : List PageCreate) (db : DB) (iid ord : Nat) :
    addPages iid ord db ps =
      { db with
        pages := db.pages ++ mkPageRows iid db.nextPageId ord ps,
        actions := db.actions ++ mkPageActions db.nextPageId db.nextActionId ps,
        nextPageId := db.nextPageId + ps.length,
        nextActionId := db.nextActionId + totalActionCount ps } := by
  induction ps generalizing db ord with
  | nil => simp [addPages, mkPageRows, mkPageActions, totalActionCount]
  | cons p ps ih =>
    rw [addPages, addPage, addActions_eq, ih]
    cases db
    simp [mkPageRows, mkPageActions, mkPageRow, totalActionCount, List.append_assoc]
    omega

theorem mkActionRows_map_text (ts : List String) (pid aid ord : Nat) :
    (mkActionRows pid aid ord ts).map (fun a => a.text) = ts := by
  induction ts generalizing aid ord with
  | nil => rfl
  | cons t ts ih => simp [mkActionRows, ih]

theorem mkActionRows_map_order (ts : List String) (pid aid ord : Nat) :
    (mkActionRows pid aid ord ts).map (fun a => a.order) = List.range' ord ts.length := by
  induction ts generalizing aid ord with
  | nil => rfl
  | cons t ts ih => simp [mkActionRows, ih, List.range'_succ]

theorem mkActionRows_page_id {ts : List String} {pid aid ord : Nat} :
    ∀ a ∈ mkActionRows pid aid ord ts, a.page_id = pid := by
  induction ts generalizing aid ord with
  | nil => simp [mkActionRows]
  | cons t ts ih =>
    intro a ha
    rcases List.mem_cons.mp ha with rfl | ha'
    · rfl
    · exact ih a ha'

theorem mkPageRows_map_title (ps : List PageCreate) (iid pid ord : Nat) :
    (mkPageRows iid pid ord ps).map (fun r => r.title) = ps.map (fun p => p.title) := by
  induction ps generalizing pid ord with
  | nil => rfl
  | cons p ps ih => simp [mkPageRows, mkPageRow, ih]

theorem mkPageRows_map_order (ps : List PageCreate) (iid pid ord : Nat) :
    (mkPageRows iid pid ord ps).map (fun r => r.order) = List.range' ord ps.length := by
  induction ps generalizing pid ord with
  | nil => rfl
  | cons p ps ih => simp [mkPageRows, mkPageRow, ih, List.range'_succ]

theorem mkPageRows_map_id (ps : List PageCreate) (iid pid ord : Nat) :
    (mkPageRows iid pid ord ps).map (fun r => r.id) = List.range' pid ps.length := by
  induction ps generalizing pid ord with
  | nil => rfl
  | cons p ps ih => simp [mkPageRows, mkPageRow, ih, List.range'_succ]

theorem mkPageRows_item_id {ps : List PageCreate} {iid pid ord : Nat} :
    ∀ r ∈ mkPageRows iid pid ord ps, r.item_id = iid := by
  induction ps generalizing pid ord with
  | nil => simp [mkPageRows]
  | cons p ps ih =>
    intro r hr
    rcases List.mem_cons.mp hr with rfl | hr'
    · rfl
    · exact ih r hr'

theorem mkPageRows_id_ge {ps : List PageCreate} {iid pid ord : Nat} :
    ∀ r ∈ mkPageRows iid pid ord ps, pid ≤ r.id := by
  induction ps generalizing pid ord with
  | nil => simp [mkPageRows]
  | cons p ps ih =>
    intro r hr
    rcases List.mem_cons.mp hr with rfl | hr'
    · simp [mkPageRow]
    · exact Nat.le_of_succ_le (ih r hr')

theorem mkPageActions_page_id_ge {ps : List PageCreate} {pid aid : Nat} :
    ∀ a ∈ mkPageActions pid aid ps, pid ≤ a.page_id := by
  induction ps generalizing pid aid with
  | nil => simp [mkPageActions]
  | cons p ps ih =>
    intro a ha
    rcases List.mem_append.mp ha with ha' | ha'
    · exact le_of_eq (mkActionRows_page_id a ha').symm
    · exact Nat.le_of_succ_le (ih a ha')

theorem sortBy_mkActionRows (ts : List String) (pid aid ord : Nat) :
    sortBy ordLeAction (mkActionRows pid aid ord ts) = mkActionRows pid aid ord ts := by
  apply sortBy_eq_self
  have horder : ((mkActionRows pid aid ord ts).map (fun a => a.order)).Pairwise (· < ·) := by
    rw [mkActionRows_map_order]
    exact List.pairwise_lt_range' ord ts.length
  refine (List.pairwise_map.mp horder).imp ?_
  intro a b h
  simp only [ordLeAction, decide_eq_false_iff_not]
  omega

theorem sortBy_mkPageRows (ps : List PageCreate) (iid pid ord : Nat) :
    sortBy ordLePage (mkPageRows iid pid ord ps) = mkPageRows iid pid ord ps := by
  apply sortBy_eq_self
  have horder : ((mkPageRows iid pid ord ps).map (fun r => r.order)).Pairwise (· < ·) := by
    rw [mkPageRows_map_order]
    exact List.pairwise_lt_range' ord ps.length
  refine (List.pairwise_map.mp horder).imp ?_
  intro a b h
  simp only [ordLePage, decide_eq_false_iff_not]
  omega

theorem actionRowsFor_middle (C A B : List ActionRow) (pid : Nat)
    (hC : ∀ a ∈ C, a.page_id ≠ pid) (hA : ∀ a ∈ A, a.page_id = pid)
    (hB : ∀ a ∈ B, a.page_id ≠ pid)
    (hsort : sortBy ordLeAction A = A) :
    actionRowsFor ((C ++ A) ++ B) pid = A := by
  unfold actionRowsFor
  rw [List.filter_append, List.filter_append]
  have hCnil : C.filter (fun a => a.page_id == pid) = [] :=
    List.filter_eq_nil_iff.mpr (by intro a ha; simpa using hC a ha)
  have hBnil : B.filter (fun a => a.page_id == pid) = [] :=
    List.filter_eq_nil_iff.mpr (by intro a ha; simpa using hB a ha)
  have hAself : A.filter (fun a => a.page_id == pid) = A :=
    List.filter_eq_self.mpr (by intro a ha; simpa using hA a ha)
  rw [hCnil, hBnil, hAself]
  simpa using hsort

theorem pageRowsFor_fresh (P : List PageRow) (ps : List PageCreate) (iid pid ord : Nat)
    (h : ∀ p ∈ P, p.item_id ≠ iid) :
    pageRowsFor (P ++ mkPageRows iid pid ord ps) iid = mkPageRows iid pid ord ps := by
  unfold pageRowsFor
  rw [List.filter_append]
  have hPnil : P.filter (fun p => p.item_id == iid) = [] :=
    List.filter_eq_nil_iff.mpr (by intro p hp; simpa using h p hp)
  have hMself : (mkPageRows iid pid ord ps).filter (fun p => p.item_id == iid)
      = mkPageRows iid pid ord ps :=
    List.filter_eq_self.mpr (by intro p hp; simpa using mkPageRows_item_id p hp)
  rw [hPnil, hMself]
  simpa using sortBy_mkPageRows ps iid pid ord

theorem actionViews_align (ps : List PageCreate) :
    ∀ (iid pid aid ord : Nat) (C : List ActionRow),
      (∀ a ∈ C, a.page_id < pid) →
      (mkPageRows iid pid ord ps).map
          (fun r => ((actionRowsFor (C ++ mkPageActions pid aid ps) r.id).map (fun a => a.text),
                     (actionRowsFor (C ++ mkPageActions pid aid ps) r.id).map (fun a => a.order)))
        = ps.map (fun p => (p.actions, List.range p.actions.length)) := by
  induction ps with
  | nil => intro iid pid aid ord C hC; rfl
  | cons p ps ih =>
    intro iid pid aid ord C hC
    rw [mkPageRows, mkPageActions, List.map_cons, List.map_cons]
    simp only [← List.append_assoc]
    have hhead :
        actionRowsFor ((C ++ mkActionRows pid aid 0 p.actions) ++
            mkPageActions (pid + 1) (aid + p.actions.length) ps) (mkPageRow iid pid ord p).id
          = mkActionRows pid aid 0 p.actions := by
      refine actionRowsFor_middle _ _ _ _ ?_ ?_ ?_ (sortBy_mkActionRows _ _ _ _)
      · intro a ha
        have := hC a ha
        simp only [mkPageRow]
        omega
      · intro a ha
        simpa [mkPageRow] using mkActionRows_page_id a ha
      · intro a ha
        have := mkPageActions_page_id_ge a ha
        simp only [mkPageRow]
        omega
    have htail :
        (mkPageRows iid (pid + 1) (ord + 1) ps).map
            (fun r => ((actionRowsFor ((C ++ mkActionRows pid aid 0 p.actions) ++
                          mkPageActions (pid + 1) (aid + p.actions.length) ps) r.id).map
                         (fun a => a.text),
                       (actionRowsFor ((C ++ mkActionRows pid aid 0 p.actions) ++
                          mkPageActions (pid + 1) (aid + p.actions.length) ps) r.id).map
                         (fun a => a.order)))
          = ps.map (fun p => (p.actions, List.range p.actions.length)) := by
      refine ih iid (pid + 1) (aid + p.actions.length) (ord + 1)
        (C ++ mkActionRows pid aid 0 p.actions) ?_
      intro a ha
      rcases List.mem_append.mp ha with ha' | ha'
      · exact Nat.lt_succ_of_lt (hC a ha')
      · rw [mkActionRows_page_id a ha']
        exact Nat.lt_succ_self pid
    rw [hhead, htail, mkActionRows_map_text, mkActionRows_map_order,
      ← List.range_eq_range']

theorem find?_append_fresh {l : List ItemRow} {row : ItemRow} {k : Nat}
    (hk : row.id = k) (h : ∀ i ∈ l, i.id ≠ k) :
    (l ++ [row]).find? (fun i => i.id == k) = some row := by
  rw [List.find?_append]
  rw [List.find?_eq_none.mpr (by intro x hx; simpa using h x hx)]
  simp [List.find?, hk]

theorem createLocs_eq (db1 : DB) (iid : Nat) (d : ItemCreate) :
    ∃ L, createLocs db1 iid d = { db1 with item_locations := L } := by
  unfold createLocs
  cases d.location_ids with
  | none => exact ⟨db1.item_locations, by cases db1; rfl⟩
  | some ids =>
    by_cases h : ids.isEmpty
    · simp only [h, if_true]
      exact ⟨db1.item_locations, by cases db1; rfl⟩
    · simp only [h, if_false]
      exact ⟨_, rfl⟩

theorem updLocs_eq (db1 : DB) (iid : Nat) (u : ItemUpdate) :
    ∃ L, updLocs db1 iid u = { db1 with item_locations := L } := by
  unfold updLocs
  cases u.location_ids with
  | none => exact ⟨db1.item_locations, by cases db1; rfl⟩
  | some ids => exact ⟨_, rfl⟩

theorem pageTreeView (base : DB) (iid : Nat) (ps : List PageCreate)
    (hp : ∀ p ∈ base.pages, p.item_id ≠ iid)
    (ha : ∀ a ∈ base.actions, a.page_id < base.nextPageId) :
    (pagesOf (addPages iid 0 base ps) iid).map (fun p => p.title) = ps.map (fun p => p.title) ∧
    (pagesOf (addPages iid 0 base ps) iid).map (fun p => p.order) = List.range ps.length ∧
    (pagesOf (addPages iid 0 base ps) iid).map
        (fun p => (actionsOf (addPages iid 0 base ps) p.id).map (fun a => a.text))
      = ps.map (fun p => p.actions) ∧
    (pagesOf (addPages iid 0 base ps) iid).map
        (fun p => (actionsOf (addPages iid 0 base ps) p.id).map (fun a => a.order))
      = ps.map (fun p => List.range p.actions.length) := by
  have heq := addPages_eq ps base iid 0
  have hpages : pagesOf (addPages iid 0 base ps) iid = mkPageRows iid base.nextPageId 0 ps := by
    show pageRowsFor (addPages iid 0 base ps).pages iid = _
    rw [heq]
    exact pageRowsFor_fresh base.pages ps iid base.nextPageId 0 hp
  have hacts : (addPages iid 0 base ps).actions
      = base.actions ++ mkPageActions base.nextPageId base.nextActionId ps := by
    rw [heq]
  have halign := actionViews_align ps iid base.nextPageId base.nextActionId 0 base.actions ha
  refine ⟨?_, ?_, ?_, ?_⟩
  · rw [hpages, mkPageRows_map_title]
  · rw [hpages, mkPageRows_map_order, ← List.range_eq_range']
  · have h3 := congrArg (List.map Prod.fst) halign
    simp only [List.map_map, Function.comp] at h3
    rw [hpages]
    simp only [actionsOf, hacts]
    exact h3
  · have h4 := congrArg (List.map Prod.snd) halign
    simp only [List.map_map, Function.comp] at h4
    rw [hpages]
    simp only [actionsOf, hacts]
    exact h4

theorem wf_empty : WF emptyDB := by
  constructor <;> simp [emptyDB]

/-- C1: for every item created via `create`, reloading it by its id
returns the pages in exactly the submitted input order and, within each
page, the actions in exactly the submitted input order, with page
`order` and action `order` assigned densely as `0..n-1`. -/
theorem create_item_reload_preserves_submitted_order (db : DB) (d : ItemCreate) (hWF : WF db) :
    ∃ t : ItemTree,
      get_item (create_item db d).1 (create_item db d).2 = some t ∧
      t.pages.map (fun pv => pv.page.title) = d.pages.map (fun p => p.title) ∧
      t.pages.map (fun pv => pv.page.order) = List.range d.pages.length ∧
      t.pages.map (fun pv => pv.actions.map (fun a => a.text)) = d.pages.map (fun p => p.actions) ∧
      t.pages.map (fun pv => pv.actions.map (fun a => a.order))
        = d.pages.map (fun p => List.range p.actions.length) := by
  obtain ⟨L, hL⟩ := createLocs_eq (createBase db d) db.nextItemId d
  have hbase_pages : (createLocs (createBase db d) db.nextItemId d).pages = db.pages := by
    rw [hL]; rfl
  have hbase_actions : (createLocs (createBase db d) db.nextItemId d).actions = db.actions := by
    rw [hL]; rfl
  have hbase_next : (createLocs (createBase db d) db.nextItemId d).nextPageId = db.nextPageId := by
    rw [hL]; rfl
  have hp : ∀ p ∈ (createLocs (createBase db d) db.nextItemId d).pages,
      p.item_id ≠ db.nextItemId := by
    rw [hbase_pages]
    intro p hpmem
    exact Nat.ne_of_lt (hWF.pages_item_lt p hpmem)
  have ha : ∀ a ∈ (createLocs (createBase db d) db.nextItemId d).actions,
      a.page_id < (createLocs (createBase db d) db.nextItemId d).nextPageId := by
    rw [hbase_actions, hbase_next]
    exact hWF.actions_page_lt
  have view := pageTreeView (createLocs (createBase db d) db.nextItemId d) db.nextItemId d.pages hp ha
  have hitems : (create_item db d).1.items =
      db.items ++ [{ id := db.nextItemId, title := d.title, item_type := d.item_type,
                     category_id := d.category_id }] := by
    show (addPages db.nextItemId 0 (createLocs (createBase db d) db.nextItemId d) d.pages).items = _
    rw [addPages_eq, hL]
    rfl
  have hfind : (create_item db d).1.items.find?
        (fun i => i.id == db.nextItemId)
      = some { id := db.nextItemId, title := d.title, item_type := d.item_type,
               category_id := d.category_id } := by
    rw [hitems]
    exact find?_append_fresh rfl (by
      intro i hi
      exact Nat.ne_of_lt (hWF.items_lt i hi))
  refine ⟨loadTree (create_item db d).1
      { id := db.nextItemId, title := d.title, item_type := d.item_type,
        category_id := d.category_id }, ?_, ?_, ?_, ?_, ?_⟩
  · show ((create_item db d).1.items.find? (fun i => i.id == db.nextItemId)).map
        (loadTree (create_item db d).1) = _
    rw [hfind]
    rfl
  · simp only [loadTree, List.map_map, Function.comp]
    exact view.1
  · simp only [loadTree, List.map_map, Function.comp]
    exact view.2.1
  · simp only [loadTree, List.map_map, Function.comp]
    exact view.2.2.1
  · simp only [loadTree, List.map_map, Function.comp]
    exact view.2.2.2

/-- Concrete creation payload used by witnesses. -/
def sampleCreate : ItemCreate :=
  { title := "Test Incident", item_type := .incident,
    pages := [{ title := "Page 1", time := "5 minutes", actions := ["Action 1", "Action 2"] },
              { title := "Page 2", actions := ["B1"] }] }

theorem create_item_reload_witness :
    WF emptyDB ∧
    (∃ t : ItemTree,
      get_item (create_item emptyDB sampleCreate).1 (create_item emptyDB sampleCreate).2 = some t ∧
      t.pages.map (fun pv => pv.page.title) = sampleCreate.pages.map (fun p => p.title) ∧
      t.pages.map (fun pv => pv.page.order) = List.range sampleCreate.pages.length ∧
      t.pages.map (fun pv => pv.actions.map (fun a => a.text))
        = sampleCreate.pages.map (fun p => p.actions) ∧
      t.pages.map (fun pv => pv.actions.map (fun a => a.order))
        = sampleCreate.pages.map (fun p => List.range p.actions.length)) :=
  ⟨wf_empty, create_item_reload_preserves_submitted_order emptyDB sampleCreate wf_empty⟩

/-! ### Update helpers -/

theorem updScalar_pages (db : DB) (iid : Nat) (u : ItemUpdate) :
    (updScalar db iid u).pages = db.pages := rfl

theorem updScalar_actions (db : DB) (iid : Nat) (u : ItemUpdate) :
    (updScalar db iid u).actions = db.actions := rfl

theorem updLocs_pages (db1 : DB) (iid : Nat) (u : ItemUpdate) :
    (updLocs db1 iid u).pages = db1.pages := by
  obtain ⟨L, hL⟩ := updLocs_eq db1 iid u
  rw [hL]

theorem updLocs_actions (db1 : DB) (iid : Nat) (u : ItemUpdate) :
    (updLocs db1 iid u).actions = db1.actions := by
  obtain ⟨L, hL⟩ := updLocs_eq db1 iid u
  rw [hL]

theorem updLocs_nextPageId (db1 : DB) (iid : Nat) (u : ItemUpdate) :
    (updLocs db1 iid u).nextPageId = db1.nextPageId := by
  obtain ⟨L, hL⟩ := updLocs_eq db1 iid u
  rw [hL]

theorem updLocs_nextActionId (db1 : DB) (iid : Nat) (u : ItemUpdate) :
    (updLocs db1 iid u).nextActionId = db1.nextActionId := by
  obtain ⟨L, hL⟩ := updLocs_eq db1 iid u
  rw [hL]

theorem update_item_eq_some {db : DB} {iid : Nat} {u : ItemUpdate}
    (hex : (db.items.find? (fun i => i.id == iid)).isSome = true) :
    update_item db iid u = some (updPages (updLocs (updScalar db iid u) iid u) iid u) := by
  unfold update_item
  obtain ⟨row, hrow⟩ := Option.isSome_iff_exists.mp hex
  rw [hrow]

/-- C2: when an update request carries a `pages` list (possibly empty),
every previously stored page of the item and every action of those pages
is deleted from the store (so no read operation can return them), and the
new pages are stored with fresh dense orders `0..n-1`. -/
theorem update_pages_replaces_subtree (db : DB) (iid : Nat) (u : ItemUpdate)
    (ps : List PageCreate) (hWF : WF db) (hups : u.pages = some ps)
    (hex : (db.items.find? (fun i => i.id == iid)).isSome = true) :
    ∃ db', update_item db iid u = some db' ∧
      (∀ p ∈ db.pages, p.item_id = iid →
        (∀ p2 ∈ db'.pages, p2.id ≠ p.id) ∧ (∀ a ∈ db'.actions, a.page_id ≠ p.id)) ∧
      (pagesOf db' iid).map (fun p => p.title) = ps.map (fun p => p.title) ∧
      (pagesOf db' iid).map (fun p => p.order) = List.range ps.length := by
  refine ⟨updPages (updLocs (updScalar db iid u) iid u) iid u, update_item_eq_some hex, ?_⟩
  have hp2 : (updLocs (updScalar db iid u) iid u).pages = db.pages := by
    rw [updLocs_pages, updScalar_pages]
  have ha2 : (updLocs (updScalar db iid u) iid u).actions = db.actions := by
    rw [updLocs_actions, updScalar_actions]
  have hnp : (updLocs (updScalar db iid u) iid u).nextPageId = db.nextPageId := by
    rw [updLocs_nextPageId]; rfl
  have hna : (updLocs (updScalar db iid u) iid u).nextActionId = db.nextActionId := by
    rw [updLocs_nextActionId]; rfl
  have hupd : updPages (updLocs (updScalar db iid u) iid u) iid u
      = addPages iid 0
          { updLocs (updScalar db iid u) iid u with
            pages := db.pages.filter (fun p => p.item_id != iid)
            actions := db.actions.filter (fun a =>
              !(((db.pages.filter (fun p => p.item_id == iid)).map (fun p => p.id)).contains
                  a.page_id)) }
          ps := by
    unfold updPages
    rw [hups]
    rw [hp2, ha2]
  have heq := addPages_eq ps
    { updLocs (updScalar db iid u) iid u with
      pages := db.pages.filter (fun p => p.item_id != iid)
      actions := db.actions.filter (fun a =>
        !(((db.pages.filter (fun p => p.item_id == iid)).map (fun p => p.id)).contains
            a.page_id)) }
    iid 0
  have hpages' : (updPages (updLocs (updScalar db iid u) iid u) iid u).pages
      = db.pages.filter (fun p => p.item_id != iid) ++
          mkPageRows iid db.nextPageId 0 ps := by
    rw [hupd, heq]
    simp [hnp]
  have hactions' : (updPages (updLocs (updScalar db iid u) iid u) iid u).actions
      = db.actions.filter (fun a =>
          !(((db.pages.filter (fun p => p.item_id == iid)).map (fun p => p.id)).contains
              a.page_id)) ++
        mkPageActions db.nextPageId db.nextActionId ps := by
    rw [hupd, heq]
    simp [hnp, hna]
  refine ⟨?_, ?_, ?_⟩
  · intro p hpmem hpiid
    constructor
    · intro p2 hp2mem
      rw [hpages'] at hp2mem
      rcases List.mem_append.mp hp2mem with hold | hnew
      · rcases List.mem_filter.mp hold with ⟨hp2db, hp2ne⟩
        intro hid
        have : p2 = p := List.inj_on_of_nodup_map hWF.pages_nodup hp2db hpmem hid
        rw [this] at hp2ne
        simp [hpiid] at hp2ne
      · have hge := mkPageRows_id_ge p2 hnew
        have hlt := hWF.pages_lt p hpmem
        omega
    · intro a hamem
      rw [hactions'] at hamem
      rcases List.mem_append.mp hamem with hold | hnew
      · rcases List.mem_filter.mp hold with ⟨hadb, hane⟩
        intro hid
        have hpin : p.id ∈ (db.pages.filter (fun p => p.item_id == iid)).map (fun p => p.id) := by
          refine List.mem_map.mpr ⟨p, ?_, rfl⟩
          exact List.mem_filter.mpr ⟨hpmem, by simp [hpiid]⟩
        rw [← hid] at hpin
        simp only [Bool.not_eq_true'] at hane
        have : a.page_id ∉ (db.pages.filter (fun p => p.item_id == iid)).map (fun p => p.id) := by
          simpa using hane
        exact this hpin
      · have hge := mkPageActions_page_id_ge a hnew
        have hlt := hWF.pages_lt p hpmem
        omega
  · have : pagesOf (updPages (updLocs (updScalar db iid u) iid u) iid u) iid
        = mkPageRows iid db.nextPageId 0 ps := by
      show pageRowsFor (updPages (updLocs (updScalar db iid u) iid u) iid u).pages iid = _
      rw [hpages']
      refine pageRowsFor_fresh _ ps iid db.nextPageId 0 ?_
      intro p hpmem
      rcases List.mem_filter.mp hpmem with ⟨_, hne⟩
      simpa using hne
    rw [this, mkPageRows_map_title]
  · have : pagesOf (updPages (updLocs (updScalar db iid u) iid u) iid u) iid
        = mkPageRows iid db.nextPageId 0 ps := by
      show pageRowsFor (updPages (updLocs (updScalar db iid u) iid u) iid u).pages iid = _
      rw [hpages']
      refine pageRowsFor_fresh _ ps iid db.nextPageId 0 ?_
      intro p hpmem
      rcases List.mem_filter.mp hpmem with ⟨_, hne⟩
      simpa using hne
    rw [this, mkPageRows_map_order, ← List.range_eq_range']

/-- Concrete replacement page list used by witnesses. -/
def samplePages2 : List PageCreate := [{ title := "New page", actions := ["X1"] }]

/-- Concrete update payload carrying a `pages` list. -/
def sampleUpdatePages : ItemUpdate := { pages := some samplePages2, pages_set := true }

theorem update_pages_replaces_subtree_witness :
    (WF (create_item emptyDB sampleCreate).1 ∧
      sampleUpdatePages.pages = some samplePages2 ∧
      ((create_item emptyDB sampleCreate).1.items.find? (fun i => i.id == 1)).isSome = true) ∧
    (∃ db', update_item (create_item emptyDB sampleCreate).1 1 sampleUpdatePages = some db' ∧
      (∀ p ∈ (create_item emptyDB sampleCreate).1.pages, p.item_id = 1 →
        (∀ p2 ∈ db'.pages, p2.id ≠ p.id) ∧ (∀ a ∈ db'.actions, a.page_id ≠ p.id)) ∧
      (pagesOf db' 1).map (fun p => p.title) = samplePages2.map (fun p => p.title) ∧
      (pagesOf db' 1).map (fun p => p.order) = List.range samplePages2.length) :=
  ⟨⟨by constructor <;> decide, rfl, by decide⟩,
   update_pages_replaces_subtree (create_item emptyDB sampleCreate).1 1 sampleUpdatePages
     samplePages2 (by constructor <;> decide) rfl (by decide)⟩

/-- C3 (evidence of the code bug): after creating an item with pages and
actions and then running the `DELETE /clear?confirm=true` body, the items
table is empty yet page and action rows survive, and a surviving page row
references an item id that no longer exists — an orphan, contradicting
the no-orphan invariant. -/
theorem clear_bulk_delete_leaves_orphans :
    (clear_all_items (create_item emptyDB sampleCreate).1).items = [] ∧
    (clear_all_items (create_item emptyDB sampleCreate).1).pages ≠ [] ∧
    (∃ p ∈ (clear_all_items (create_item emptyDB sampleCreate).1).pages,
      ∀ i ∈ (clear_all_items (create_item emptyDB sampleCreate).1).items, i.id ≠ p.item_id) ∧
    (clear_all_items (create_item emptyDB sampleCreate).1).actions ≠ [] := by
  refine ⟨by decide, by decide, ?_, by decide⟩
  decide

/-! ### Update frame lemmas -/

theorem updPages_items (db2 : DB) (iid : Nat) (u : ItemUpdate) :
    (updPages db2 iid u).items = db2.items := by
  cases hps : u.pages with
  | none => simp [updPages, hps]
  | some ps => simp [updPages, hps, addPages_eq]

theorem updPages_item_locations (db2 : DB) (iid : Nat) (u : ItemUpdate) :
    (updPages db2 iid u).item_locations = db2.item_locations := by
  cases hps : u.pages with
  | none => simp [updPages, hps]
  | some ps => simp [updPages, hps, addPages_eq]

theorem updPages_none (db2 : DB) (iid : Nat) (u : ItemUpdate) (h : u.pages = none) :
    updPages db2 iid u = db2 := by
  simp [updPages, h]

theorem updLocs_items (db1 : DB) (iid : Nat) (u : ItemUpdate) :
    (updLocs db1 iid u).items = db1.items := by
  obtain ⟨L, hL⟩ := updLocs_eq db1 iid u
  rw [hL]

theorem updLocs_none (db1 : DB) (iid : Nat) (u : ItemUpdate) (h : u.location_ids = none) :
    updLocs db1 iid u = db1 := by
  simp [updLocs, h]

theorem find?_id_map (l : List ItemRow) (iid : Nat) (f : ItemRow → ItemRow)
    (hf : ∀ i, (f i).id = i.id) :
    (l.map f).find? (fun i => i.id == iid) = (l.find? (fun i => i.id == iid)).map f := by
  induction l with
  | nil => rfl
  | cons i t ih =>
    by_cases h : (i.id == iid) = true
    · simp [List.find?, hf, h]
    · simp [List.find?, hf, h, ih]

/-- C4 (amended): an update leaves every omitted-or-null field unchanged
and applies exactly the fields present with a non-null value; only
`category_id` is presence-aware, so that an explicit `category_id: null`
is distinguished from an omitted `category_id` and clears the stored
category; items other than the target are untouched. -/
theorem update_partial_fields_frame (db : DB) (iid : Nat) (u : ItemUpdate)
    (hex : (db.items.find? (fun i => i.id == iid)).isSome = true) :
    ∃ db', update_item db iid u = some db' ∧
      (u.pages = none → db'.pages = db.pages ∧ db'.actions = db.actions) ∧
      (u.location_ids = none → db'.item_locations = db.item_locations) ∧
      (∀ i ∈ db.items, i.id ≠ iid → i ∈ db'.items) ∧
      (∀ row, db.items.find? (fun i => i.id == iid) = some row →
        ∃ row', db'.items.find? (fun i => i.id == iid) = some row' ∧
          (u.title = none → row'.title = row.title) ∧
          (∀ s, u.title = some s → row'.title = s) ∧
          (u.item_type = none → row'.item_type = row.item_type) ∧
          (∀ y, u.item_type = some y → row'.item_type = y) ∧
          (u.category_id_set = false → row'.category_id = row.category_id) ∧
          (u.category_id_set = true → row'.category_id = u.category_id)) := by
  refine ⟨updPages (updLocs (updScalar db iid u) iid u) iid u, update_item_eq_some hex,
    ?_, ?_, ?_, ?_⟩
  · intro hps
    rw [updPages_none _ _ _ hps]
    exact ⟨by rw [updLocs_pages, updScalar_pages], by rw [updLocs_actions, updScalar_actions]⟩
  · intro hls
    rw [updPages_item_locations, updLocs_none _ _ _ hls]
    rfl
  · intro i hi hne
    rw [updPages_items, updLocs_items]
    show i ∈ db.items.map (fun j => if j.id == iid then applyItemFields u j else j)
    refine List.mem_map.mpr ⟨i, hi, ?_⟩
    simp [hne]
  · intro row hrow
    refine ⟨applyItemFields u row, ?_, ?_, ?_, ?_, ?_, ?_, ?_⟩
    · rw [updPages_items, updLocs_items]
      show (db.items.map (fun j => if j.id == iid then applyItemFields u j else j)).find?
          (fun i => i.id == iid) = _
      rw [find?_id_map]
      · rw [hrow]
        have hpeq := List.find?_some hrow
        simp [hpeq]
        intro hne
        exact absurd (by simpa using hpeq) hne
      · intro j
        by_cases h : (j.id == iid) = true <;> simp [h, applyItemFields]
    · intro h; simp [applyItemFields, h]
    · intro s h; simp [applyItemFields, h]
    · intro h; simp [applyItemFields, h]
    · intro y h; simp [applyItemFields, h]
    · intro h; simp [applyItemFields, h]
    · intro h; simp [applyItemFields, h]

theorem update_partial_fields_frame_witness :
    ((create_item emptyDB sampleCreate).1.items.find? (fun i => i.id == 1)).isSome = true ∧
    (∃ db', update_item (create_item emptyDB sampleCreate).1 1
        { title := some "Updated", title_set := true } = some db' ∧
      (({ title := some "Updated", title_set := true } : ItemUpdate).pages = none →
        db'.pages = (create_item emptyDB sampleCreate).1.pages ∧
        db'.actions = (create_item emptyDB sampleCreate).1.actions) ∧
      (({ title := some "Updated", title_set := true } : ItemUpdate).location_ids = none →
        db'.item_locations = (create_item emptyDB sampleCreate).1.item_locations) ∧
      (∀ i ∈ (create_item emptyDB sampleCreate).1.items, i.id ≠ 1 → i ∈ db'.items) ∧
      (∀ row, (create_item emptyDB sampleCreate).1.items.find? (fun i => i.id == 1) = some row →
        ∃ row', db'.items.find? (fun i => i.id == 1) = some row' ∧
          (({ title := some "Updated", title_set := true } : ItemUpdate).title = none →
            row'.title = row.title) ∧
          (∀ s, ({ title := some "Updated", title_set := true } : ItemUpdate).title = some s →
            row'.title = s) ∧
          (({ title := some "Updated", title_set := true } : ItemUpdate).item_type = none →
            row'.item_type = row.item_type) ∧
          (∀ y, ({ title := some "Updated", title_set := true } : ItemUpdate).item_type = some y →
            row'.item_type = y) ∧
          (({ title := some "Updated", title_set := true } : ItemUpdate).category_id_set = false →
            row'.category_id = row.category_id) ∧
          (({ title := some "Updated", title_set := true } : ItemUpdate).category_id_set = true →
            row'.category_id =
              ({ title := some "Updated", title_set := true } : ItemUpdate).category_id))) :=
  ⟨by decide,
   update_partial_fields_frame (create_item emptyDB sampleCreate).1 1
     { title := some "Updated", title_set := true } (by decide)⟩

/-- C4 (counterexample): a request whose `pages` field is explicitly
present with value `null` produces exactly the same result as a request
omitting `pages` — the update does not distinguish field-omitted from
field-null (it is presence-aware only for `category_id`), and the
explicitly present `pages` field changes nothing, although the stored
page tree is non-empty. -/
theorem update_null_pages_not_distinguished :
    ({ pages_set := true : ItemUpdate }.pages_set = true ∧
      ({} : ItemUpdate).pages_set = false) ∧
    update_item (create_item emptyDB sampleCreate).1 1 { pages_set := true }
      = update_item (create_item emptyDB sampleCreate).1 1 {} ∧
    (∃ db', update_item (create_item emptyDB sampleCreate).1 1 { pages_set := true } = some db' ∧
      db'.pages = (create_item emptyDB sampleCreate).1.pages ∧
      (create_item emptyDB sampleCreate).1.pages ≠ []) := by
  refine ⟨⟨rfl, rfl⟩, by decide, ?_⟩
  decide

/-! ### Location resolution (C5) -/

theorem addPages_item_locations (ps : List PageCreate) (db : DB) (iid ord : Nat) :
    (addPages iid ord db ps).item_locations = db.item_locations := by
  rw [addPages_eq]

theorem filter_assoc_nil {l : List (Nat × Nat)} {iid : Nat}
    (h : ∀ pr ∈ l, pr.1 ≠ iid) :
    l.filter (fun pr => pr.1 == iid) = [] :=
  List.filter_eq_nil_iff.mpr (by intro pr hpr; simpa using h pr hpr)

theorem itemLocationIds_append_pairs (old : List (Nat × Nat)) (R : List LocationRow)
    (iid : Nat) (hold : ∀ pr ∈ old, pr.1 ≠ iid) :
    ((old ++ R.map (fun l => (iid, l.id))).filter (fun pr => pr.1 == iid)).map
        (fun pr => pr.2)
      = R.map (fun l => l.id) := by
  rw [List.filter_append, filter_assoc_nil hold]
  rw [List.filter_eq_self.mpr (by
    intro pr hpr
    rcases List.mem_map.mp hpr with ⟨l, _, rfl⟩
    simp)]
  simp [List.map_map]

/-- C5: a create or update payload carrying a `location_ids` list
associates the item with exactly the locations whose ids exist in the
store; unknown ids are silently dropped (they match no row) and the
operation completes normally. -/
theorem location_ids_resolved (db : DB) (ids : List Nat) (hWF : WF db) :
    (∀ d : ItemCreate, d.location_ids = some ids →
      itemLocationIds (create_item db d).1 (create_item db d).2
        = (db.locations.filter (fun l => ids.contains l.id)).map (fun l => l.id)) ∧
    (∀ (iid : Nat) (u : ItemUpdate), u.location_ids = some ids →
      (db.items.find? (fun i => i.id == iid)).isSome = true →
      ∃ db', update_item db iid u = some db' ∧
        itemLocationIds db' iid
          = (db.locations.filter (fun l => ids.contains l.id)).map (fun l => l.id)) := by
  constructor
  · intro d hd
    have h1 : (create_item db d).1.item_locations
        = (createLocs (createBase db d) db.nextItemId d).item_locations :=
      addPages_item_locations d.pages _ db.nextItemId 0
    have hold : ∀ pr ∈ db.item_locations, pr.1 ≠ db.nextItemId := by
      intro pr hpr
      exact Nat.ne_of_lt (hWF.assoc_item_lt pr hpr)
    show ((create_item db d).1.item_locations.filter
        (fun pr => pr.1 == (create_item db d).2)).map (fun pr => pr.2) = _
    rw [h1]
    unfold createLocs
    rw [hd]
    by_cases hE : ids.isEmpty
    · simp only [hE, if_true]
      have hids : ids = [] := List.isEmpty_iff.mp hE
      have : (createBase db d).item_locations.filter
          (fun pr => pr.1 == (create_item db d).2) = [] := filter_assoc_nil hold
      rw [this]
      rw [List.filter_eq_nil_iff.mpr (by intro l _; simp [hids])]
      rfl
    · simp only [hE, if_false]
      exact itemLocationIds_append_pairs db.item_locations
        (resolveLocations (createBase db d) ids) db.nextItemId hold
  · intro iid u hu hex
    refine ⟨updPages (updLocs (updScalar db iid u) iid u) iid u, update_item_eq_some hex, ?_⟩
    have h1 : (updPages (updLocs (updScalar db iid u) iid u) iid u).item_locations
        = (updLocs (updScalar db iid u) iid u).item_locations :=
      updPages_item_locations _ iid u
    have h2 : (updLocs (updScalar db iid u) iid u).item_locations
        = db.item_locations.filter (fun pr => pr.1 != iid) ++
            (resolveLocations db ids).map (fun l => (iid, l.id)) := by
      simp only [updLocs, hu]
      rfl
    show ((updPages (updLocs (updScalar db iid u) iid u) iid u).item_locations.filter
        (fun pr => pr.1 == iid)).map (fun pr => pr.2) = _
    rw [h1, h2]
    exact itemLocationIds_append_pairs _ (resolveLocations db ids) iid (by
      intro pr hpr
      rcases List.mem_filter.mp hpr with ⟨_, hne⟩
      simpa using hne)

/-- Concrete store with one item and two locations, for witnesses. -/
def sampleLocDB : DB :=
  { items := [{ id := 1, title := "Item", item_type := .incident }],
    locations := [{ id := 1, name := "PU-1", code := "pu1" },
                  { id := 2, name := "PU-2", code := "pu2" }],
    nextItemId := 2 }

/-- Concrete creation payload with a known and an unknown location id. -/
def sampleCreateLoc : ItemCreate :=
  { title := "Loc item", item_type := .instruction, location_ids := some [2, 99] }

/-- Concrete update payload with a known and an unknown location id. -/
def sampleUpdateLoc : ItemUpdate :=
  { location_ids := some [2, 99], location_ids_set := true }

theorem location_ids_resolved_witness :
    WF sampleLocDB ∧
    itemLocationIds (create_item sampleLocDB sampleCreateLoc).1
        (create_item sampleLocDB sampleCreateLoc).2
      = (sampleLocDB.locations.filter (fun l => [2, 99].contains l.id)).map (fun l => l.id) ∧
    (∃ db', update_item sampleLocDB 1 sampleUpdateLoc = some db' ∧
      itemLocationIds db' 1
        = (sampleLocDB.locations.filter (fun l => [2, 99].contains l.id)).map
            (fun l => l.id)) := by
  have hwf : WF sampleLocDB := by constructor <;> decide
  exact ⟨hwf,
    (location_ids_resolved sampleLocDB [2, 99] hwf).1 sampleCreateLoc rfl,
    (location_ids_resolved sampleLocDB [2, 99] hwf).2 1 sampleUpdateLoc rfl (by decide)⟩

/-! ### Validation before write (C7) -/

/-- Concrete creation payload whose titles are valid but whose only
action text is empty — the text violates the `ActionBase` bound that no
input path enforces. -/
def badActionCreate : ItemCreate :=
  { title := "Valid title", item_type := .incident,
    pages := [{ title := "P1", actions := [""] }] }

/-- C7 (counterexample): a creation payload carrying an empty action text
is accepted — the handler returns a new id instead of the
`ValidationError` the claim requires, and the empty text (which violates
the declared but never-applied `ActionBase` bound) is persisted, because
`PageCreate.actions` is a plain `list[str]` with no per-string
constraints. -/
theorem create_accepts_invalid_action_text :
    (∃ p ∈ badActionCreate.pages, ∃ a ∈ p.actions, a.length = 0) ∧
    validActionText "" = false ∧
    (api_create_item emptyDB badActionCreate).2 = some 1 ∧
    (∃ a ∈ (api_create_item emptyDB badActionCreate).1.actions, a.text = "") := by
  refine ⟨by decide, by decide, by decide, ?_⟩
  decide

/-- C7 (amended): a creation payload whose item title or any page title is
empty or over 255 characters is rejected by validation before
`create_item` runs, leaving the store unchanged; action texts are never
validated on the create path, so any payload with valid titles and times
is accepted no matter what its action strings are. -/
theorem create_validates_titles_not_actions (db : DB) (d : ItemCreate) :
    ((d.title.length = 0 ∨ 255 < d.title.length) ∨
      (∃ p ∈ d.pages, p.title.length = 0 ∨ 255 < p.title.length) →
      api_create_item db d = (db, none)) ∧
    (validTitle d.title = true →
      (∀ p ∈ d.pages, validTitle p.title = true ∧ validTime p.time = true) →
      (api_create_item db d).2 = some (create_item db d).2) := by
  constructor
  · intro hbad
    have hval : validItemCreate d = false := by
      cases h1 : validItemCreate d with
      | false => rfl
      | true =>
        exfalso
        simp only [validItemCreate, Bool.and_eq_true, List.all_eq_true] at h1
        obtain ⟨htitle, hpages⟩ := h1
        simp only [validTitle, Bool.and_eq_true, decide_eq_true_eq] at htitle
        rcases hbad with h | ⟨p, hp, h⟩
        · omega
        · have := hpages p hp
          simp only [validPageCreate, Bool.and_eq_true] at this
          have := this.1
          simp only [validTitle, Bool.and_eq_true, decide_eq_true_eq] at this
          omega
    unfold api_create_item
    rw [hval]
    simp
  · intro ht hp
    have hval : validItemCreate d = true := by
      simp only [validItemCreate, Bool.and_eq_true, List.all_eq_true]
      refine ⟨ht, ?_⟩
      intro p hpmem
      simp only [validPageCreate, Bool.and_eq_true]
      exact hp p hpmem
    unfold api_create_item
    rw [hval]
    simp

/-- Concrete invalid creation payload: empty title. -/
def badCreate : ItemCreate := { title := "", item_type := .incident }

theorem create_validates_titles_not_actions_witness :
    ((badCreate.title.length = 0 ∨ 255 < badCreate.title.length) ∨
      (∃ p ∈ badCreate.pages, p.title.length = 0 ∨ 255 < p.title.length)) ∧
    api_create_item emptyDB badCreate = (emptyDB, none) ∧
    validTitle badActionCreate.title = true ∧
    (∀ p ∈ badActionCreate.pages, validTitle p.title = true ∧ validTime p.time = true) ∧
    (api_create_item emptyDB badActionCreate).2 = some (create_item emptyDB badActionCreate).2 :=
  ⟨by decide,
   (create_validates_titles_not_actions emptyDB badCreate).1 (by decide),
   by decide, by decide,
   (create_validates_titles_not_actions emptyDB badActionCreate).2 (by decide) (by decide)⟩

/-! ### Upload checks (C9) -/

/-- C9: an upload larger than the configured maximum is rejected with a
400 response, and an upload whose filename carries a disallowed extension
is rejected with a 400 `badExtension` response no matter what the image
pipeline would do — the extension check runs before any processing. -/
theorem upload_rejects_oversize_and_bad_extension
    (process : Nat → Option Nat) (req : UploadReq) :
    (MAX_UPLOAD_SIZE < req.size → uploadRejected (upload_image process req) = true) ∧
    (∀ f, req.filename = some f → f.isEmpty = false →
      ALLOWED_EXTENSIONS.contains (extOf f) = false →
      upload_image process req = .badExtension ∧
      uploadRejected (upload_image process req) = true) := by
  constructor
  · intro hsize
    unfold upload_image
    rw [if_pos hsize]
    split <;> rfl
  · intro f hf hne hext
    have h : upload_image process req = .badExtension := by
      unfold upload_image
      have hcond : (match req.filename with
          | some f => !f.isEmpty && !(ALLOWED_EXTENSIONS.contains (extOf f))
          | none => false) = true := by
        simp only [hf]
        rw [hne, hext]
        rfl
      rw [if_pos hcond]
    exact ⟨h, by rw [h]; rfl⟩

/-- Concrete oversized upload request. -/
def bigUpload : UploadReq := { filename := some "photo.png", size := 5 * 1024 * 1024 + 1 }

/-- Concrete upload request with a disallowed extension. -/
def badExtUpload : UploadReq := { filename := some "virus.exe", size := 10 }

theorem upload_rejects_witness :
    (MAX_UPLOAD_SIZE < bigUpload.size ∧
      uploadRejected (upload_image (fun n => some n) bigUpload) = true) ∧
    (badExtUpload.filename = some "virus.exe" ∧
      ("virus.exe" : String).isEmpty = false ∧
      ALLOWED_EXTENSIONS.contains (extOf "virus.exe") = false ∧
      upload_image (fun n => some n) badExtUpload = .badExtension ∧
      uploadRejected (upload_image (fun n => some n) badExtUpload) = true) := by
  refine ⟨⟨by decide, ?_⟩, ⟨rfl, by decide, by decide, ?_, ?_⟩⟩
  · exact (upload_rejects_oversize_and_bad_extension (fun n => some n) bigUpload).1 (by decide)
  · exact ((upload_rejects_oversize_and_bad_extension (fun n => some n) badExtUpload).2
      "virus.exe" rfl (by decide) (by decide)).1
  · exact ((upload_rejects_oversize_and_bad_extension (fun n => some n) badExtUpload).2
      "virus.exe" rfl (by decide) (by decide)).2

/-! ### Import machinery -/

/-- Item rows created by one import loop: titles from the entries, ids
counting up from `iid`, fixed type, no category. -/
def mkImportedItems (t : ItemType) (iid : Nat) : List ImportItem → List ItemRow
  | [] => []
  | it :: rest =>
    { id := iid, title := it.title, item_type := t, category_id := none } ::
      mkImportedItems t (iid + 1) rest

theorem mkImportedItems_map_title (t : ItemType) (l : List ImportItem) (iid : Nat) :
    (mkImportedItems t iid l).map (fun i => i.title) = l.map (fun it => it.title) := by
  induction l generalizing iid with
  | nil => rfl
  | cons it rest ih => simp [mkImportedItems, ih]

theorem mkImportedItems_map_id (t : ItemType) (l : List ImportItem) (iid : Nat) :
    (mkImportedItems t iid l).map (fun i => i.id) = List.range' iid l.length := by
  induction l generalizing iid with
  | nil => rfl
  | cons it rest ih => simp [mkImportedItems, ih, List.range'_succ]

theorem mkImportedItems_length (t : ItemType) (l : List ImportItem) (iid : Nat) :
    (mkImportedItems t iid l).length = l.length := by
  induction l generalizing iid with
  | nil => rfl
  | cons it rest ih => simp [mkImportedItems, ih]

theorem mkImportedItems_mem {t : ItemType} {l : List ImportItem} {iid : Nat} :
    ∀ r ∈ mkImportedItems t iid l,
      r.category_id = none ∧ iid ≤ r.id ∧ r.item_type = t := by
  induction l generalizing iid with
  | nil => simp [mkImportedItems]
  | cons it rest ih =>
    intro r hr
    rcases List.mem_cons.mp hr with rfl | hr'
    · exact ⟨rfl, Nat.le_refl _, rfl⟩
    · rcases ih r hr' with ⟨h1, h2, h3⟩
      exact ⟨h1, Nat.le_of_succ_le h2, h3⟩

theorem mkImportedItems_filter_same (t : ItemType) (l : List ImportItem) (iid : Nat) :
    (mkImportedItems t iid l).filter (fun i => decide (i.item_type = t))
      = mkImportedItems t iid l :=
  List.filter_eq_self.mpr (by
    intro r hr
    simp [(mkImportedItems_mem r hr).2.2])

theorem mkImportedItems_filter_other {t t' : ItemType} (h : t ≠ t') (l : List ImportItem)
    (iid : Nat) :
    (mkImportedItems t iid l).filter (fun i => decide (i.item_type = t')) = [] :=
  List.filter_eq_nil_iff.mpr (by
    intro r hr
    have := (mkImportedItems_mem r hr).2.2
    simp [this, h])

theorem create_item_items (db : DB) (d : ItemCreate) :
    (create_item db d).1.items
      = db.items ++ [{ id := db.nextItemId, title := d.title, item_type := d.item_type,
                       category_id := d.category_id }] := by
  show (addPages db.nextItemId 0 (createLocs (createBase db d) db.nextItemId d) d.pages).items = _
  rw [addPages_eq]
  obtain ⟨L, hL⟩ := createLocs_eq (createBase db d) db.nextItemId d
  rw [hL]
  rfl

theorem create_item_nextItemId (db : DB) (d : ItemCreate) :
    (create_item db d).1.nextItemId = db.nextItemId + 1 := by
  show (addPages db.nextItemId 0 (createLocs (createBase db d) db.nextItemId d) d.pages).nextItemId = _
  rw [addPages_eq]
  obtain ⟨L, hL⟩ := createLocs_eq (createBase db d) db.nextItemId d
  rw [hL]
  rfl

theorem create_item_assoc_none (db : DB) (d : ItemCreate) (h : d.location_ids = none) :
    (create_item db d).1.item_locations = db.item_locations := by
  show (addPages db.nextItemId 0 (createLocs (createBase db d) db.nextItemId d) d.pages).item_locations = _
  rw [addPages_item_locations]
  unfold createLocs
  rw [h]
  rfl

theorem importItemToCreate_locs (t : ItemType) (it : ImportItem) :
    (importItemToCreate t it).location_ids = none := rfl


theorem importList_step {t : ItemType} {it : ImportItem} (rest : List ImportItem) (db : DB)
    (hv : validItemCreate (importItemToCreate t it) = true) :
    importList t db (it :: rest)
      = { importList t (create_item db (importItemToCreate t it)).1 rest with
          count := (importList t (create_item db (importItemToCreate t it)).1 rest).count + 1 } := by
  simp only [importList, hv, if_true]

theorem importList_general (t : ItemType) (l : List ImportItem) :
    ∀ db : DB, ∃ tl,
      (importList t db l).db.items = db.items ++ tl ∧
      (∀ r ∈ tl, r.category_id = none ∧ r.item_type = t ∧ db.nextItemId ≤ r.id) ∧
      (importList t db l).db.item_locations = db.item_locations ∧
      db.nextItemId ≤ (importList t db l).db.nextItemId := by
  induction l with
  | nil =>
    intro db
    exact ⟨[], by simp [importList], by simp, by simp [importList], Nat.le_refl _⟩
  | cons it rest ih =>
    intro db
    by_cases hv : validItemCreate (importItemToCreate t it) = true
    · obtain ⟨tl, htl_items, htl_mem, htl_assoc, htl_next⟩ :=
        ih (create_item db (importItemToCreate t it)).1
      refine ⟨{ id := db.nextItemId, title := it.title, item_type := t,
                category_id := none } :: tl, ?_, ?_, ?_, ?_⟩
      · rw [importList_step rest db hv]
        show (importList t (create_item db (importItemToCreate t it)).1 rest).db.items = _
        rw [htl_items, create_item_items]
        simp [List.append_assoc, importItemToCreate]
      · intro r hr
        rcases List.mem_cons.mp hr with rfl | hr'
        · exact ⟨rfl, rfl, Nat.le_refl _⟩
        · rcases htl_mem r hr' with ⟨h1, h2, h3⟩
          rw [create_item_nextItemId] at h3
          exact ⟨h1, h2, by omega⟩
      · rw [importList_step rest db hv]
        show (importList t (create_item db (importItemToCreate t it)).1 rest).db.item_locations = _
        rw [htl_assoc, create_item_assoc_none]
        rfl
      · rw [importList_step rest db hv]
        show db.nextItemId ≤ (importList t (create_item db (importItemToCreate t it)).1 rest).db.nextItemId
        rw [create_item_nextItemId] at htl_next
        omega
    · refine ⟨[], by simp [importList, hv], by simp, by simp [importList, hv], ?_⟩
      simp [importList, hv]

theorem importList_valid (t : ItemType) (l : List ImportItem) :
    ∀ db : DB, (∀ it ∈ l, validItemCreate (importItemToCreate t it) = true) →
      (importList t db l).ok = true ∧
      (importList t db l).count = l.length ∧
      (importList t db l).db.items = db.items ++ mkImportedItems t db.nextItemId l ∧
      (importList t db l).db.nextItemId = db.nextItemId + l.length := by
  induction l with
  | nil =>
    intro db hval
    exact ⟨rfl, rfl, by simp [importList, mkImportedItems], by simp [importList]⟩
  | cons it rest ih =>
    intro db hval
    have hv : validItemCreate (importItemToCreate t it) = true := hval it (by simp)
    obtain ⟨hok, hcount, hitems, hnext⟩ :=
      ih (create_item db (importItemToCreate t it)).1 (by
        intro x hx
        exact hval x (by simp [hx]))
    rw [importList_step rest db hv]
    refine ⟨hok, by simpa using hcount, ?_, ?_⟩
    · show (importList t (create_item db (importItemToCreate t it)).1 rest).db.items = _
      rw [hitems, create_item_items, create_item_nextItemId]
      simp [List.append_assoc, mkImportedItems, importItemToCreate]
    · show (importList t (create_item db (importItemToCreate t it)).1 rest).db.nextItemId
          = db.nextItemId + (it :: rest).length
      rw [hnext, create_item_nextItemId, List.length_cons]
      omega

theorem importList_ignores_ids (t : ItemType) (l : List ImportItem) :
    ∀ db : DB, importList t db (l.map (fun it => { it with id := none })) = importList t db l := by
  induction l with
  | nil => intro db; rfl
  | cons it rest ih =>
    intro db
    show importList t db ({ it with id := none } :: rest.map (fun it => { it with id := none }))
      = importList t db (it :: rest)
    have hsame : importItemToCreate t { it with id := none } = importItemToCreate t it := rfl
    by_cases hv : validItemCreate (importItemToCreate t it) = true
    · rw [importList_step (rest.map (fun it => { it with id := none })) db (by rw [hsame]; exact hv),
        importList_step rest db hv]
      rw [hsame, ih]
    · simp only [importList]
      rw [hsame]
      simp [hv]

theorem bulk_import_db_eq (db : DB) (data : ImportData) :
    (bulk_import_items db data).db
      = if (importList .incident db data.incidents).ok
        then (importList .instruction (importList .incident db data.incidents).db
                data.instructions).db
        else (importList .incident db data.incidents).db := by
  by_cases hok : (importList .incident db data.incidents).ok = true
  · simp [bulk_import_items, hok]
  · simp [bulk_import_items, hok]

theorem bulk_import_general (db : DB) (data : ImportData) :
    ∃ tl, (bulk_import_items db data).db.items = db.items ++ tl ∧
      (∀ r ∈ tl, r.category_id = none ∧ db.nextItemId ≤ r.id) ∧
      (bulk_import_items db data).db.item_locations = db.item_locations := by
  obtain ⟨tl1, h1i, h1m, h1a, h1n⟩ := importList_general .incident data.incidents db
  rw [bulk_import_db_eq]
  by_cases hok : (importList .incident db data.incidents).ok = true
  · rw [if_pos hok]
    obtain ⟨tl2, h2i, h2m, h2a, h2n⟩ :=
      importList_general .instruction data.instructions (importList .incident db data.incidents).db
    refine ⟨tl1 ++ tl2, ?_, ?_, ?_⟩
    · rw [h2i, h1i, List.append_assoc]
    · intro r hr
      rcases List.mem_append.mp hr with h | h
      · rcases h1m r h with ⟨hc, _, hi⟩
        exact ⟨hc, hi⟩
      · rcases h2m r h with ⟨hc, _, hi⟩
        exact ⟨hc, le_trans h1n hi⟩
    · rw [h2a, h1a]
  · rw [if_neg hok]
    refine ⟨tl1, h1i, ?_, h1a⟩
    intro r hr
    rcases h1m r hr with ⟨hc, _, hi⟩
    exact ⟨hc, hi⟩

theorem bulk_import_valid (db : DB) (data : ImportData)
    (hv1 : ∀ it ∈ data.incidents, validItemCreate (importItemToCreate .incident it) = true)
    (hv2 : ∀ it ∈ data.instructions, validItemCreate (importItemToCreate .instruction it) = true) :
    (bulk_import_items db data).ok = true ∧
    (bulk_import_items db data).incidents = data.incidents.length ∧
    (bulk_import_items db data).instructions = data.instructions.length ∧
    (bulk_import_items db data).db.items
      = db.items ++ (mkImportedItems .incident db.nextItemId data.incidents ++
          mkImportedItems .instruction (db.nextItemId + data.incidents.length)
            data.instructions) := by
  obtain ⟨hok1, hcount1, hitems1, hnext1⟩ := importList_valid .incident data.incidents db hv1
  obtain ⟨hok2, hcount2, hitems2, hnext2⟩ :=
    importList_valid .instruction data.instructions (importList .incident db data.incidents).db hv2
  have hred : bulk_import_items db data
      = { db := (importList .instruction (importList .incident db data.incidents).db
              data.instructions).db,
          incidents := (importList .incident db data.incidents).count,
          instructions := (importList .instruction (importList .incident db data.incidents).db
              data.instructions).count,
          ok := (importList .instruction (importList .incident db data.incidents).db
              data.instructions).ok } := by
    simp [bulk_import_items, hok1]
  rw [hred]
  refine ⟨hok2, hcount1, hcount2, ?_⟩
  show (importList .instruction (importList .incident db data.incidents).db
      data.instructions).db.items = _
  rw [hitems2, hitems1, hnext1, List.append_assoc]

theorem bulk_import_ignores_ids (db0 : DB) (data0 : ImportData) :
    bulk_import_items db0 (eraseIds data0) = bulk_import_items db0 data0 := by
  have h1 : (eraseIds data0).incidents
      = data0.incidents.map (fun it => { it with id := none }) := rfl
  have h2 : (eraseIds data0).instructions
      = data0.instructions.map (fun it => { it with id := none }) := rfl
  unfold bulk_import_items
  simp only [h1, h2, importList_ignores_ids]

theorem mem_pagesOf {db : DB} {iid : Nat} {p : PageRow} (h : p ∈ pagesOf db iid) :
    p ∈ db.pages :=
  (List.mem_filter.mp (mem_sortBy.mp h)).1

theorem mem_actionsOf {db : DB} {pid : Nat} {a : ActionRow} (h : a ∈ actionsOf db pid) :
    a ∈ db.actions :=
  (List.mem_filter.mp (mem_sortBy.mp h)).1

theorem export_entry_valid (db : DB) (hWF : WF db) (t t' : ItemType) (tree : ItemTree)
    (htree : tree ∈ get_items_by_type db t) :
    validItemCreate (importItemToCreate t' (parseExportEntry (treeToDict tree))) = true := by
  obtain ⟨i, hi, rfl⟩ := List.mem_map.mp htree
  have hi' : i ∈ db.items := (List.mem_filter.mp (mem_sortBy.mp hi)).1
  simp only [validItemCreate, Bool.and_eq_true, List.all_eq_true]
  constructor
  · exact hWF.items_valid i hi'
  · intro pc hpc
    simp only [importItemToCreate, parseExportEntry, treeToDict, loadTree, List.map_map,
      List.mem_map] at hpc
    obtain ⟨p, hp, rfl⟩ := hpc
    have hpdb : p ∈ db.pages := mem_pagesOf hp
    simp only [Function.comp, importPageToCreate, Option.getD_some, validPageCreate,
      Bool.and_eq_true]
    exact ⟨(hWF.pages_valid p hpdb).1, (hWF.pages_valid p hpdb).2⟩

/-- C6: exporting, clearing all items, and importing the snapshot yields a
store with the same number of incidents and instructions and the same
multiset of titles; item ids are freshly assigned by the store (all
distinct, and the snapshot id fields are ignored), and import only ever
appends new rows (strictly additive, never an upsert). -/
theorem export_clear_import_roundtrip (db : DB) (hWF : WF db) :
    (bulk_import_items (clear_all_items db) (parseImportData (export_all_items db))).ok = true ∧
    ((bulk_import_items (clear_all_items db)
        (parseImportData (export_all_items db))).db.items.filter
        (fun i => decide (i.item_type = ItemType.incident))).length
      = (db.items.filter (fun i => decide (i.item_type = ItemType.incident))).length ∧
    ((bulk_import_items (clear_all_items db)
        (parseImportData (export_all_items db))).db.items.filter
        (fun i => decide (i.item_type = ItemType.instruction))).length
      = (db.items.filter (fun i => decide (i.item_type = ItemType.instruction))).length ∧
    (((bulk_import_items (clear_all_items db)
        (parseImportData (export_all_items db))).db.items.filter
        (fun i => decide (i.item_type = ItemType.incident))).map (fun i => i.title)).Perm
      ((db.items.filter (fun i => decide (i.item_type = ItemType.incident))).map
        (fun i => i.title)) ∧
    (((bulk_import_items (clear_all_items db)
        (parseImportData (export_all_items db))).db.items.filter
        (fun i => decide (i.item_type = ItemType.instruction))).map (fun i => i.title)).Perm
      ((db.items.filter (fun i => decide (i.item_type = ItemType.instruction))).map
        (fun i => i.title)) ∧
    ((bulk_import_items (clear_all_items db)
        (parseImportData (export_all_items db))).db.items.map (fun i => i.id)).Nodup ∧
    (∀ (db0 : DB) (data0 : ImportData),
      bulk_import_items db0 (eraseIds data0) = bulk_import_items db0 data0) ∧
    (∀ (db0 : DB) (data0 : ImportData),
      ∃ tl, (bulk_import_items db0 data0).db.items = db0.items ++ tl) := by
  have hdincs : (parseImportData (export_all_items db)).incidents
      = (get_items_by_type db .incident).map (fun T => parseExportEntry (treeToDict T)) := by
    simp [parseImportData, export_all_items, List.map_map, Function.comp]
  have hdinstr : (parseImportData (export_all_items db)).instructions
      = (get_items_by_type db .instruction).map (fun T => parseExportEntry (treeToDict T)) := by
    simp [parseImportData, export_all_items, List.map_map, Function.comp]
  have hv1 : ∀ it ∈ (parseImportData (export_all_items db)).incidents,
      validItemCreate (importItemToCreate .incident it) = true := by
    intro it hit
    rw [hdincs] at hit
    obtain ⟨T, hT, rfl⟩ := List.mem_map.mp hit
    exact export_entry_valid db hWF .incident .incident T hT
  have hv2 : ∀ it ∈ (parseImportData (export_all_items db)).instructions,
      validItemCreate (importItemToCreate .instruction it) = true := by
    intro it hit
    rw [hdinstr] at hit
    obtain ⟨T, hT, rfl⟩ := List.mem_map.mp hit
    exact export_entry_valid db hWF .instruction .instruction T hT
  obtain ⟨hok, hcinc, hcins, hitems⟩ :=
    bulk_import_valid (clear_all_items db) (parseImportData (export_all_items db)) hv1 hv2
  have hclr_items : (clear_all_items db).items = [] := rfl
  have hclr_next : (clear_all_items db).nextItemId = db.nextItemId := rfl
  rw [hclr_items, hclr_next, List.nil_append] at hitems
  have hfiltInc : (bulk_import_items (clear_all_items db)
      (parseImportData (export_all_items db))).db.items.filter
        (fun i => decide (i.item_type = ItemType.incident))
      = mkImportedItems .incident db.nextItemId
          (parseImportData (export_all_items db)).incidents := by
    rw [hitems, List.filter_append, mkImportedItems_filter_same,
      mkImportedItems_filter_other (by intro h; cases h), List.append_nil]
  have hfiltIns : (bulk_import_items (clear_all_items db)
      (parseImportData (export_all_items db))).db.items.filter
        (fun i => decide (i.item_type = ItemType.instruction))
      = mkImportedItems .instruction
          (db.nextItemId + (parseImportData (export_all_items db)).incidents.length)
          (parseImportData (export_all_items db)).instructions := by
    rw [hitems, List.filter_append, mkImportedItems_filter_same,
      mkImportedItems_filter_other (by intro h; cases h), List.nil_append]
  have htitleInc : (mkImportedItems .incident db.nextItemId
        (parseImportData (export_all_items db)).incidents).map (fun i => i.title)
      = (sortBy idLeItem (db.items.filter
          (fun i => decide (i.item_type = ItemType.incident)))).map (fun i => i.title) := by
    rw [mkImportedItems_map_title, hdincs]
    simp [get_items_by_type, List.map_map, Function.comp, parseExportEntry, treeToDict, loadTree]
  have htitleIns : (mkImportedItems .instruction
        (db.nextItemId + (parseImportData (export_all_items db)).incidents.length)
        (parseImportData (export_all_items db)).instructions).map (fun i => i.title)
      = (sortBy idLeItem (db.items.filter
          (fun i => decide (i.item_type = ItemType.instruction)))).map (fun i => i.title) := by
    rw [mkImportedItems_map_title, hdinstr]
    simp [get_items_by_type, List.map_map, Function.comp, parseExportEntry, treeToDict, loadTree]
  have permInc : (((bulk_import_items (clear_all_items db)
      (parseImportData (export_all_items db))).db.items.filter
        (fun i => decide (i.item_type = ItemType.incident))).map (fun i => i.title)).Perm
      ((db.items.filter (fun i => decide (i.item_type = ItemType.incident))).map
        (fun i => i.title)) := by
    rw [hfiltInc, htitleInc]
    exact (sortBy_perm idLeItem _).map (fun i => i.title)
  have permIns : (((bulk_import_items (clear_all_items db)
      (parseImportData (export_all_items db))).db.items.filter
        (fun i => decide (i.item_type = ItemType.instruction))).map (fun i => i.title)).Perm
      ((db.items.filter (fun i => decide (i.item_type = ItemType.instruction))).map
        (fun i => i.title)) := by
    rw [hfiltIns, htitleIns]
    exact (sortBy_perm idLeItem _).map (fun i => i.title)
  refine ⟨hok, ?_, ?_, permInc, permIns, ?_, ?_, ?_⟩
  · have := permInc.length_eq
    simpa [List.length_map] using this
  · have := permIns.length_eq
    simpa [List.length_map] using this
  · rw [hitems, List.map_append, mkImportedItems_map_id, mkImportedItems_map_id]
    have hr := List.range'_append db.nextItemId
      (parseImportData (export_all_items db)).incidents.length
      (parseImportData (export_all_items db)).instructions.length 1
    rw [Nat.one_mul] at hr
    rw [hr]
    exact List.nodup_range' _ _
  · exact fun db0 data0 => bulk_import_ignores_ids db0 data0
  · intro db0 data0
    obtain ⟨tl, h, _, _⟩ := bulk_import_general db0 data0
    exact ⟨tl, h⟩

theorem export_clear_import_roundtrip_witness :
    WF (create_item emptyDB sampleCreate).1 ∧
    ((bulk_import_items (clear_all_items (create_item emptyDB sampleCreate).1)
        (parseImportData (export_all_items (create_item emptyDB sampleCreate).1))).ok = true ∧
      ((bulk_import_items (clear_all_items (create_item emptyDB sampleCreate).1)
          (parseImportData (export_all_items (create_item emptyDB sampleCreate).1))).db.items.filter
          (fun i => decide (i.item_type = ItemType.incident))).length
        = ((create_item emptyDB sampleCreate).1.items.filter
            (fun i => decide (i.item_type = ItemType.incident))).length ∧
      ((bulk_import_items (clear_all_items (create_item emptyDB sampleCreate).1)
          (parseImportData (export_all_items (create_item emptyDB sampleCreate).1))).db.items.filter
          (fun i => decide (i.item_type = ItemType.instruction))).length
        = ((create_item emptyDB sampleCreate).1.items.filter
            (fun i => decide (i.item_type = ItemType.instruction))).length ∧
      (((bulk_import_items (clear_all_items (create_item emptyDB sampleCreate).1)
          (parseImportData (export_all_items (create_item emptyDB sampleCreate).1))).db.items.filter
          (fun i => decide (i.item_type = ItemType.incident))).map (fun i => i.title)).Perm
        (((create_item emptyDB sampleCreate).1.items.filter
            (fun i => decide (i.item_type = ItemType.incident))).map (fun i => i.title)) ∧
      (((bulk_import_items (clear_all_items (create_item emptyDB sampleCreate).1)
          (parseImportData (export_all_items (create_item emptyDB sampleCreate).1))).db.items.filter
          (fun i => decide (i.item_type = ItemType.instruction))).map (fun i => i.title)).Perm
        (((create_item emptyDB sampleCreate).1.items.filter
            (fun i => decide (i.item_type = ItemType.instruction))).map (fun i => i.title)) ∧
      ((bulk_import_items (clear_all_items (create_item emptyDB sampleCreate).1)
          (parseImportData (export_all_items (create_item emptyDB sampleCreate).1))).db.items.map
          (fun i => i.id)).Nodup ∧
      (∀ (db0 : DB) (data0 : ImportData),
        bulk_import_items db0 (eraseIds data0) = bulk_import_items db0 data0) ∧
      (∀ (db0 : DB) (data0 : ImportData),
        ∃ tl, (bulk_import_items db0 data0).db.items = db0.items ++ tl)) := by
  have hwf : WF (create_item emptyDB sampleCreate).1 := by constructor <;> decide
  exact ⟨hwf, export_clear_import_roundtrip (create_item emptyDB sampleCreate).1 hwf⟩

/-- C10: every item created by an import has a null category and no
location associations, no matter which `category_id`/`location_ids`
values appear in the raw snapshot — parsing the snapshot as `ImportData`
keeps only `id`, `title` and `pages`, and the synthesized creation
payloads leave `category_id` and `location_ids` at their `None`
defaults. -/
theorem import_drops_category_and_locations (db : DB) (raw : ExportBundle) (hWF : WF db) :
    ∀ i ∈ (bulk_import_items db (parseImportData raw)).db.items, i ∉ db.items →
      i.category_id = none ∧
      itemLocationIds (bulk_import_items db (parseImportData raw)).db i.id = [] := by
  obtain ⟨tl, hitems, hmem, hassoc⟩ := bulk_import_general db (parseImportData raw)
  intro i hi hnot
  rw [hitems] at hi
  rcases List.mem_append.mp hi with h | h
  · exact absurd h hnot
  · rcases hmem i h with ⟨hc, hid⟩
    refine ⟨hc, ?_⟩
    show ((bulk_import_items db (parseImportData raw)).db.item_locations.filter
        (fun pr => pr.1 == i.id)).map (fun pr => pr.2) = []
    rw [hassoc]
    rw [filter_assoc_nil (by
      intro pr hpr
      have := hWF.assoc_item_lt pr hpr
      omega)]
    rfl

/-- Concrete raw snapshot carrying category and location values. -/
def sampleRawBundle : ExportBundle :=
  { incidents := [{ id := 7, title := "Imported", category_id := some 3, location_ids := [1, 2],
                    pages := [{ title := "P", time := "1m", image := "", actions := ["A"] }] }] }

theorem import_drops_category_and_locations_witness :
    WF emptyDB ∧
    (∀ i ∈ (bulk_import_items emptyDB (parseImportData sampleRawBundle)).db.items,
      i ∉ emptyDB.items →
      i.category_id = none ∧
      itemLocationIds (bulk_import_items emptyDB (parseImportData sampleRawBundle)).db i.id
        = []) :=
  ⟨wf_empty, import_drops_category_and_locations emptyDB sampleRawBundle wf_empty⟩

/-! ### Search semantics (C8) -/

/-- Literal list-prefix test (used to define substring containment). -/
def listStartsWith : List Char → List Char → Bool
  | [], _ => true
  | _ :: _, [] => false
  | a :: q, b :: s => (a == b) && listStartsWith q s

/-- Literal sub-list (substring) test. -/
def listHasSub (q : List Char) : List Char → Bool
  | [] => listStartsWith q []
  | c :: s => listStartsWith q (c :: s) || listHasSub q s

/-- Case-insensitive substring containment, the reading of the claim's
"title contains the given text case-insensitively" (with the ASCII case
folding that SQLite applies). -/
def containsCI (q s : String) : Bool :=
  listHasSub (q.data.map lowerChar) (s.data.map lowerChar)

theorem listStartsWith_iff (q : List Char) :
    ∀ s : List Char, listStartsWith q s = true ↔ ∃ t, s = q ++ t := by
  induction q with
  | nil => intro s; simp [listStartsWith]
  | cons a q ih =>
    intro s
    cases s with
    | nil => simp [listStartsWith]
    | cons b s =>
      simp only [listStartsWith, Bool.and_eq_true, beq_iff_eq, List.cons_append]
      constructor
      · rintro ⟨rfl, h⟩
        obtain ⟨t, rfl⟩ := (ih s).mp h
        exact ⟨t, rfl⟩
      · rintro ⟨t, ht⟩
        injection ht with h1 h2
        exact ⟨h1.symm, (ih s).mpr ⟨t, h2⟩⟩

theorem listHasSub_iff (q : List Char) :
    ∀ s : List Char, listHasSub q s = true ↔ ∃ l r, s = l ++ q ++ r := by
  intro s
  induction s with
  | nil =>
    simp only [listHasSub, listStartsWith_iff]
    constructor
    · rintro ⟨t, ht⟩
      exact ⟨[], t, by simpa using ht⟩
    · rintro ⟨l, r, hl⟩
      rcases List.append_eq_nil.mp hl.symm with ⟨hlq, rfl⟩
      rcases List.append_eq_nil.mp hlq with ⟨rfl, rfl⟩
      exact ⟨[], by simp⟩
  | cons c s ih =>
    simp only [listHasSub, Bool.or_eq_true, listStartsWith_iff, ih]
    constructor
    · rintro (⟨t, ht⟩ | ⟨l, r, hl⟩)
      · exact ⟨[], t, by simpa using ht⟩
      · exact ⟨c :: l, r, by simp [hl]⟩
    · rintro ⟨l, r, hl⟩
      cases l with
      | nil => exact Or.inl ⟨r, by simpa using hl⟩
      | cons x l =>
        right
        simp only [List.cons_append, List.append_assoc] at hl
        injection hl with h1 h2
        exact ⟨l, r, by simp [h2]⟩

theorem likeMatch_pct_any (s : List Char) : likeMatch ['%'] s = true := by
  induction s with
  | nil => simp [likeMatch]
  | cons c s ih => simp [likeMatch, ih]

theorem likeMatch_pct (ps : List Char) :
    ∀ s : List Char,
      likeMatch ('%' :: ps) s = true ↔ ∃ s1 s2, s = s1 ++ s2 ∧ likeMatch ps s2 = true := by
  intro s
  induction s with
  | nil =>
    constructor
    · intro h
      exact ⟨[], [], rfl, by simpa [likeMatch] using h⟩
    · rintro ⟨s1, s2, hs, h⟩
      rcases List.append_eq_nil.mp hs.symm with ⟨rfl, rfl⟩
      simpa [likeMatch] using h
  | cons c s ih =>
    rw [show likeMatch ('%' :: ps) (c :: s)
        = (likeMatch ps (c :: s) || likeMatch ('%' :: ps) s) from by simp [likeMatch]]
    simp only [Bool.or_eq_true, ih]
    constructor
    · rintro (h | ⟨s1, s2, hs, h2⟩)
      · exact ⟨[], c :: s, rfl, h⟩
      · exact ⟨c :: s1, s2, by simp [hs], h2⟩
    · rintro ⟨s1, s2, hs, h2⟩
      cases s1 with
      | nil =>
        left
        simp only [List.nil_append] at hs
        rw [hs]
        exact h2
      | cons x s1 =>
        right
        simp only [List.cons_append] at hs
        injection hs with h1 h2'
        exact ⟨s1, s2, h2', h2⟩

theorem likeMatch_lit :
    ∀ q : List Char, (∀ c ∈ q, c ≠ '%' ∧ c ≠ '_') → ∀ ps s : List Char,
      likeMatch (q ++ ps) s = true ↔
        ∃ s1 s2, s = s1 ++ s2 ∧ s1.map lowerChar = q.map lowerChar ∧
          likeMatch ps s2 = true := by
  intro q
  induction q with
  | nil =>
    intro _ ps s
    constructor
    · intro h
      exact ⟨[], s, rfl, rfl, by simpa using h⟩
    · rintro ⟨s1, s2, rfl, hmap, h2⟩
      have hnil : s1 = [] := List.map_eq_nil_iff.mp hmap
      subst hnil
      simpa using h2
  | cons a q ih =>
    intro hq ps s
    have ha := hq a (by simp)
    have hq' : ∀ c ∈ q, c ≠ '%' ∧ c ≠ '_' := fun c hc => hq c (by simp [hc])
    cases s with
    | nil =>
      rw [show likeMatch ((a :: q) ++ ps) [] = false from by simp [likeMatch, ha.1, ha.2]]
      refine iff_of_false (by simp) ?_
      rintro ⟨s1, s2, hs, hmap, h2⟩
      rcases List.append_eq_nil.mp hs.symm with ⟨rfl, rfl⟩
      simp at hmap
    | cons b s =>
      rw [show likeMatch ((a :: q) ++ ps) (b :: s)
          = ((lowerChar a == lowerChar b) && likeMatch (q ++ ps) s) from by
        simp [likeMatch, ha.1, ha.2]]
      simp only [Bool.and_eq_true, beq_iff_eq]
      constructor
      · rintro ⟨hab, h⟩
        obtain ⟨s1, s2, rfl, hmap, h2⟩ := (ih hq' ps s).mp h
        exact ⟨b :: s1, s2, rfl, by simp [hmap, hab], h2⟩
      · rintro ⟨s1, s2, hs, hmap, h2⟩
        cases s1 with
        | nil => simp at hmap
        | cons x s1 =>
          simp only [List.cons_append] at hs
          injection hs with hb hs'
          simp only [List.map_cons] at hmap
          injection hmap with hm1 hm2
          subst hb
          exact ⟨by rw [hm1], (ih hq' ps s).mpr ⟨s1, s2, hs', hm2, h2⟩⟩

theorem likeMatch_searchPattern (q s : String)
    (hq : ∀ c ∈ q.data, c ≠ '%' ∧ c ≠ '_') :
    likeMatch (searchPattern q) s.data = containsCI q s := by
  apply Bool.coe_iff_coe.mp
  unfold searchPattern containsCI
  rw [likeMatch_pct, listHasSub_iff]
  constructor
  · rintro ⟨s1, s2, hs, h2⟩
    obtain ⟨u, v, rfl, hmap, _⟩ := (likeMatch_lit q.data hq ['%'] s2).mp h2
    refine ⟨s1.map lowerChar, v.map lowerChar, ?_⟩
    rw [hs]
    simp [List.map_append, hmap]
  · rintro ⟨l, r, hlr⟩
    refine ⟨s.data.take l.length, s.data.drop l.length,
      (List.take_append_drop _ _).symm, ?_⟩
    apply (likeMatch_lit q.data hq ['%'] _).mpr
    refine ⟨(s.data.drop l.length).take q.data.length,
      (s.data.drop l.length).drop q.data.length,
      (List.take_append_drop _ _).symm, ?_, likeMatch_pct_any _⟩
    rw [List.map_take, List.map_drop, hlr, List.append_assoc, List.drop_left]
    exact List.take_left' (List.length_map q.data lowerChar)

theorem titleLeItem_total : ∀ a b : ItemRow, titleLeItem a b = false → titleLeItem b a = true := by
  intro a b h
  simp only [titleLeItem, decide_eq_false_iff_not] at h
  simp only [titleLeItem, decide_eq_true_eq]
  exact le_of_not_le h

theorem titleLeItem_trans : ∀ a b c : ItemRow,
    titleLeItem a b = true → titleLeItem b c = true → titleLeItem a c = true := by
  intro a b c h1 h2
  simp only [titleLeItem, decide_eq_true_eq] at h1 h2 ⊢
  exact le_trans h1 h2

/-- C8 (amended): `search_items` returns exactly the items whose title
matches the SQL `LIKE` pattern `%text%`; for a text free of the `LIKE`
wildcards `%` and `_` this is exactly case-insensitive substring
containment, and the result is ordered by title. -/
theorem search_items_contains_ci (db : DB) (q : String)
    (hq : ∀ c ∈ q.data, c ≠ '%' ∧ c ≠ '_') :
    (∀ i : ItemRow, i ∈ search_items db q ↔ i ∈ db.items ∧ containsCI q i.title = true) ∧
    (search_items db q).Pairwise (fun a b => a.title ≤ b.title) := by
  constructor
  · intro i
    unfold search_items
    rw [mem_sortBy, List.mem_filter, likeMatch_searchPattern q i.title hq]
  · refine (sortBy_pairwise titleLeItem_total titleLeItem_trans _).imp ?_
    intro a b h
    simpa [titleLeItem, decide_eq_true_eq] using h

/-- Concrete store with one item, used for the search claims. -/
def searchDB : DB :=
  { items := [{ id := 1, title := "abc", item_type := .incident }], nextItemId := 2 }

theorem search_items_contains_ci_witness :
    (∀ c ∈ ("b" : String).data, c ≠ '%' ∧ c ≠ '_') ∧
    ((∀ i : ItemRow, i ∈ search_items searchDB "b" ↔
        i ∈ searchDB.items ∧ containsCI "b" i.title = true) ∧
      (search_items searchDB "b").Pairwise (fun a b => a.title ≤ b.title)) :=
  ⟨by decide, search_items_contains_ci searchDB "b" (by decide)⟩

/-- C8 (counterexample): the query text `a_c` does not occur in the title
`abc` in any case, yet `search_items` returns that item, because the `_`
of the query acts as a single-character `LIKE` wildcard inside the
`%query%` pattern — refuting "returns exactly the items whose title
contains the given text case-insensitively". -/
theorem search_wildcard_counterexample :
    (search_items searchDB "a_c").map (fun i => i.title) = ["abc"] ∧
    containsCI "a_c" "abc" = false ∧
    ¬(∃ l r, ("abc".data.map lowerChar) = l ++ ("a_c".data.map lowerChar) ++ r) := by
  refine ⟨?_, by decide, ?_⟩
  · simp [search_items, searchDB, searchPattern, likeMatch, lowerChar, sortBy, insertBy]
  · intro h
    have := (listHasSub_iff ("a_c".data.map lowerChar) ("abc".data.map lowerChar)).mpr h
    exact absurd this (by decide)
